
import Mathlib

/-!
Verification of the `lmdb_sensor_storage` core against its specification.

The Python code is shallowly embedded: an LMDB sub-store keyed by timestamps
is a list of `(key, value)` pairs sorted strictly ascending by key (LMDB
stores keys in lexicographic order and the 8-byte big-endian key encoding
makes that chronological order); timestamps are natural numbers counting
microseconds since the epoch (the key codec packs
`int(timestamp * 1e6)` into 8 bytes); byte strings are lists of byte
values.  Cursor operations (`set_range`, `prev`, `next`, `last`, `delete`)
are translated to list operations on the sorted list, following the
documented py-lmdb semantics.  Fallible Python code (raising) is embedded
with `Option`/`Except`-style results.
-/

set_option maxRecDepth 8192

namespace LmdbSensorStorage

/-- A Python `bytes` object: the list of its byte values. -/
abbrev Bytes := List Nat

/-! ## Integer field codecs (struct module, little-endian / native on x86)

`struct.pack` on integer format characters writes fixed-width
little-endian integers; signed fields use two's complement. -/

/-- Little-endian encoding of `n` on `w` bytes (`struct.pack` integer field,
truncating like the C cast; admissible inputs are in range). -/
def encode_uint : Nat → Nat → Bytes
  | 0, _ => []
  | w + 1, n => (n % 256) :: encode_uint w (n / 256)

/-- Little-endian decoding of a byte list to an unsigned integer
(`struct.unpack` integer field). -/
def decode_uint : Bytes → Nat
  | [] => 0
  | b :: bs => b + 256 * decode_uint bs

/-- Two's-complement encoding of a signed integer on `w` bytes
(`struct.pack` signed integer field): the stored pattern is
`z mod 256^w`, written without `emod` since on the admissible range it
is `z` itself for `z ≥ 0` and `z + 256^w` for `z < 0`. -/
def encode_int (w : Nat) (z : Int) : Bytes :=
  encode_uint w (if 0 ≤ z then z.toNat else (z + 256 ^ w).toNat)

/-- Two's-complement decoding of a byte list to a signed integer
(`struct.unpack` signed integer field). -/
def decode_int (w : Nat) (bs : Bytes) : Int :=
  let u := decode_uint bs
  if u < 256 ^ w / 2 then (u : Int) else (u : Int) - 256 ^ w

/-! ## Float codec (`FloatPacker`, `struct.pack('f', ...)`)

A 4-byte IEEE-754 binary32 datum, modelled at the representation level:
sign bit, 8 exponent bits, 23 fraction bits.  `struct.pack('f', x)` first
rounds `x` to this representation; the claims about the float codec are
therefore settled on the representation, where the codec is exact. -/

structure Float32 where
  sign : Bool
  exp : Nat
  frac : Nat
  exp_lt : exp < 256
  frac_lt : frac < 2 ^ 23

instance : DecidableEq Float32 := fun a b => by
  cases a; cases b
  simp only [Float32.mk.injEq]
  exact inferInstance

/-- The 32-bit pattern of a binary32 datum (sign in bit 31, exponent in
bits 23..30, fraction in bits 0..22). -/
def Float32.bits (f : Float32) : Nat :=
  f.frac + 2 ^ 23 * f.exp + 2 ^ 31 * (if f.sign then 1 else 0)

/-- The exact rational value of a binary32 datum (finite cases; the
exponent 255 patterns are infinities and NaNs and carry no rational
value, they are excluded by admissibility of the packed value). -/
def Float32.val (f : Float32) : ℚ :=
  let s : ℚ := if f.sign then -1 else 1
  if f.exp = 0 then
    s * (f.frac : ℚ) / 2 ^ 23 * (2 ^ 126)⁻¹
  else
    s * ((2 ^ 23 + f.frac : ℕ) : ℚ) / 2 ^ 23 * 2 ^ f.exp / 2 ^ 127

/-- Little-endian 4-byte encoding of a binary32 datum:
`struct.pack('f', x)` on x86 (native little-endian). -/
def pack_f32 (f : Float32) : Bytes :=
  encode_uint 4 f.bits

/-- Decoding of 4 bytes back to a binary32 datum: `struct.unpack('f', b)`.
Returns `none` when the byte string does not have length 4 (Python raises
`struct.error` there). -/
def unpack_f32 (bs : Bytes) : Option Float32 :=
  if h : bs.length = 4 ∧ decode_uint bs < 2 ^ 32 then
    let u := decode_uint bs
    some ⟨2 ^ 31 ≤ u, u / 2 ^ 23 % 256, u % 2 ^ 23, Nat.mod_lt _ (by norm_num),
      Nat.mod_lt _ (by norm_num)⟩
  else
    none

/-! ## UTF-8 codec (`StringPacker`: `str.encode` / `bytes.decode`)

Python strings are sequences of Unicode code points; `encode()` writes
them in UTF-8 and `decode()` reads them back. -/

/-- UTF-8 encoding of a single code point. -/
def utf8EncodeChar (c : Nat) : Bytes :=
  if c < 0x80 then [c]
  else if c < 0x800 then [0xC0 + c / 64, 0x80 + c % 64]
  else if c < 0x10000 then [0xE0 + c / 4096, 0x80 + c / 64 % 64, 0x80 + c % 64]
  else [0xF0 + c / 262144, 0x80 + c / 4096 % 64, 0x80 + c / 64 % 64, 0x80 + c % 64]

/-- UTF-8 encoding of a code-point sequence (`str.encode()`). -/
def utf8Encode (cs : List Nat) : Bytes :=
  (cs.map utf8EncodeChar).flatten

/-- One step of UTF-8 decoding: read one code point from the front of the
byte string, returning it with the remaining bytes, or `none` on a
malformed or empty prefix. -/
def utf8DecodeStep : Bytes → Option (Nat × Bytes)
  | [] => none
  | b0 :: rest =>
    if b0 < 0x80 then some (b0, rest)
    else if b0 < 0xE0 then
      rest.head?.bind (fun b1 =>
        if 0xC0 ≤ b0 ∧ 0x80 ≤ b1 ∧ b1 < 0xC0 then
          some ((b0 - 0xC0) * 64 + (b1 - 0x80), rest.tail)
        else none)
    else if b0 < 0xF0 then
      (rest.get? 0).bind (fun b1 => (rest.get? 1).bind (fun b2 =>
        if (0x80 ≤ b1 ∧ b1 < 0xC0) ∧ (0x80 ≤ b2 ∧ b2 < 0xC0) then
          some ((b0 - 0xE0) * 4096 + (b1 - 0x80) * 64 + (b2 - 0x80), rest.drop 2)
        else none))
    else
      (rest.get? 0).bind (fun b1 => (rest.get? 1).bind (fun b2 => (rest.get? 2).bind (fun b3 =>
        if b0 < 0xF8 ∧ (0x80 ≤ b1 ∧ b1 < 0xC0) ∧ (0x80 ≤ b2 ∧ b2 < 0xC0) ∧
            (0x80 ≤ b3 ∧ b3 < 0xC0) then
          some ((b0 - 0xF0) * 262144 + (b1 - 0x80) * 4096 + (b2 - 0x80) * 64 +
            (b3 - 0x80), rest.drop 3)
        else none)))

theorem utf8DecodeStep_length (bs : Bytes) (c : Nat) (rest : Bytes)
    (h : utf8DecodeStep bs = some (c, rest)) : rest.length < bs.length := by
  match bs with
  | [] => simp [utf8DecodeStep] at h
  | b0 :: r =>
    simp only [utf8DecodeStep] at h
    by_cases h1 : b0 < 0x80
    · rw [if_pos h1] at h
      cases h
      simp
    · rw [if_neg h1] at h
      by_cases h2 : b0 < 0xE0
      · rw [if_pos h2] at h
        cases hb1 : r.head? with
        | none => rw [hb1] at h; exact Option.noConfusion h
        | some b1 =>
          rw [hb1] at h
          simp only [Option.some_bind] at h
          by_cases h3 : 0xC0 ≤ b0 ∧ 0x80 ≤ b1 ∧ b1 < 0xC0
          · rw [if_pos h3] at h
            cases h
            have := List.length_tail r
            simp
            omega
          · rw [if_neg h3] at h
            exact Option.noConfusion h
      · rw [if_neg h2] at h
        by_cases h3 : b0 < 0xF0
        · rw [if_pos h3] at h
          cases hb1 : r.get? 0 with
          | none => rw [hb1] at h; exact Option.noConfusion h
          | some b1 =>
            rw [hb1] at h
            simp only [Option.some_bind] at h
            cases hb2 : r.get? 1 with
            | none => rw [hb2] at h; exact Option.noConfusion h
            | some b2 =>
              rw [hb2] at h
              simp only [Option.some_bind] at h
              by_cases h4 : (0x80 ≤ b1 ∧ b1 < 0xC0) ∧ (0x80 ≤ b2 ∧ b2 < 0xC0)
              · rw [if_pos h4] at h
                cases h
                simp
                omega
              · rw [if_neg h4] at h
                exact Option.noConfusion h
        · rw [if_neg h3] at h
          cases hb1 : r.get? 0 with
          | none => rw [hb1] at h; exact Option.noConfusion h
          | some b1 =>
            rw [hb1] at h
            simp only [Option.some_bind] at h
            cases hb2 : r.get? 1 with
            | none => rw [hb2] at h; exact Option.noConfusion h
            | some b2 =>
              rw [hb2] at h
              simp only [Option.some_bind] at h
              cases hb3 : r.get? 2 with
              | none => rw [hb3] at h; exact Option.noConfusion h
              | some b3 =>
                rw [hb3] at h
                simp only [Option.some_bind] at h
                by_cases h4 : b0 < 0xF8 ∧ (0x80 ≤ b1 ∧ b1 < 0xC0) ∧
                    (0x80 ≤ b2 ∧ b2 < 0xC0) ∧ (0x80 ≤ b3 ∧ b3 < 0xC0)
                · rw [if_pos h4] at h
                  cases h
                  simp
                  omega
                · rw [if_neg h4] at h
                  exact Option.noConfusion h

/-- UTF-8 decoding (`bytes.decode()`), returning `none` on malformed
input (Python raises `UnicodeDecodeError`). -/
def utf8Decode (bs : Bytes) : Option (List Nat) :=
  match h : utf8DecodeStep bs with
  | some (c, rest) =>
    have : rest.length < bs.length := utf8DecodeStep_length bs c rest h
    (utf8Decode rest).map (c :: ·)
  | none => if bs = [] then some [] else none
termination_by bs.length

/-- A code point a Python `str` admissible for `encode()` may hold:
in Unicode range and not a surrogate. -/
def validCodepoint (c : Nat) : Prop :=
  c < 0x110000 ∧ ¬ (0xD800 ≤ c ∧ c < 0xE000)

instance (c : Nat) : Decidable (validCodepoint c) := by
  unfold validCodepoint
  exact inferInstance

/-- The bytes of a Python `str` under `StringPacker.pack` (which calls
`str(x).encode()`; on a string input that is UTF-8 encoding). -/
def strToBytes (s : String) : Bytes :=
  utf8Encode (s.data.map Char.toNat)

/-! ## Double codec (`struct` field `d`): IEEE-754 binary64 at the
representation level, analogous to `Float32`. -/

structure Float64 where
  sign : Bool
  exp : Nat
  frac : Nat
  exp_lt : exp < 2048
  frac_lt : frac < 2 ^ 52

instance : DecidableEq Float64 := fun a b => by
  cases a; cases b
  simp only [Float64.mk.injEq]
  exact inferInstance

/-- The 64-bit pattern of a binary64 datum. -/
def Float64.bits (f : Float64) : Nat :=
  f.frac + 2 ^ 52 * f.exp + 2 ^ 63 * (if f.sign then 1 else 0)

/-- Little-endian 8-byte encoding of a binary64 datum. -/
def pack_f64 (f : Float64) : Bytes :=
  encode_uint 8 f.bits

/-- Decoding of 8 bytes back to a binary64 datum. -/
def unpack_f64 (bs : Bytes) : Option Float64 :=
  if h : bs.length = 8 ∧ decode_uint bs < 2 ^ 64 then
    let u := decode_uint bs
    some ⟨2 ^ 63 ≤ u, u / 2 ^ 52 % 2048, u % 2 ^ 52, Nat.mod_lt _ (by norm_num),
      Nat.mod_lt _ (by norm_num)⟩
  else
    none

/-! ## `StructPacker` (`struct.pack` / `struct.unpack`)

A format string over the alphabet `{b,B,h,H,i,I,q,Q,f,d}` with optional
decimal repeat counts describes a packed tuple of fixed-width fields.
The repo uses pure same-width numeric formats (such as `HH` and `3f`),
for which the native layout has no alignment padding, so fields are
laid out back to back. -/

inductive FieldChar
  | fb | fB | fh | fH | fi | fI | fq | fQ | ff | fd
deriving DecidableEq

/-- Width in bytes of one struct field (`struct.calcsize` of the field). -/
def FieldChar.width : FieldChar → Nat
  | .fb => 1
  | .fB => 1
  | .fh => 2
  | .fH => 2
  | .fi => 4
  | .fI => 4
  | .fq => 8
  | .fQ => 8
  | .ff => 4
  | .fd => 8

/-- One element of a packed tuple: a Python int for the integer format
characters, a float at binary32/binary64 representation for `f`/`d`. -/
inductive FieldVal
  | vint (z : Int)
  | v32 (x : Float32)
  | v64 (x : Float64)
deriving DecidableEq

/-- Encoding of one field value (`struct.pack` of a single field);
`none` models `struct.error` on a value of the wrong type or out of
range for the field. -/
def encode_field : FieldChar → FieldVal → Option Bytes
  | .fb, .vint z => if -128 ≤ z ∧ z < 128 then some (encode_int 1 z) else none
  | .fh, .vint z => if -(2 ^ 15) ≤ z ∧ z < 2 ^ 15 then some (encode_int 2 z) else none
  | .fi, .vint z => if -(2 ^ 31) ≤ z ∧ z < 2 ^ 31 then some (encode_int 4 z) else none
  | .fq, .vint z => if -(2 ^ 63) ≤ z ∧ z < 2 ^ 63 then some (encode_int 8 z) else none
  | .fB, .vint z => if 0 ≤ z ∧ z < 2 ^ 8 then some (encode_uint 1 z.toNat) else none
  | .fH, .vint z => if 0 ≤ z ∧ z < 2 ^ 16 then some (encode_uint 2 z.toNat) else none
  | .fI, .vint z => if 0 ≤ z ∧ z < 2 ^ 32 then some (encode_uint 4 z.toNat) else none
  | .fQ, .vint z => if 0 ≤ z ∧ z < 2 ^ 64 then some (encode_uint 8 z.toNat) else none
  | .ff, .v32 x => some (pack_f32 x)
  | .fd, .v64 x => some (pack_f64 x)
  | _, _ => none

/-- Decoding of one field from exactly `width` bytes
(`struct.unpack` of a single field). -/
def decode_field : FieldChar → Bytes → Option FieldVal
  | .fb, bs => some (.vint (decode_int 1 bs))
  | .fh, bs => some (.vint (decode_int 2 bs))
  | .fi, bs => some (.vint (decode_int 4 bs))
  | .fq, bs => some (.vint (decode_int 8 bs))
  | .fB, bs => some (.vint (decode_uint bs))
  | .fH, bs => some (.vint (decode_uint bs))
  | .fI, bs => some (.vint (decode_uint bs))
  | .fQ, bs => some (.vint (decode_uint bs))
  | .ff, bs => (unpack_f32 bs).map .v32
  | .fd, bs => (unpack_f64 bs).map .v64

/-- Model of `struct.pack(fmt, *x)`: `none` models `struct.error` (wrong arity,
wrong type, out-of-range value). -/
def struct_pack : List FieldChar → List FieldVal → Option Bytes
  | [], [] => some []
  | f :: fs, v :: vs =>
    (encode_field f v).bind (fun enc => (struct_pack fs vs).map (enc ++ ·))
  | _, _ => none

/-- Model of `struct.unpack(fmt, b)`: `none` models `struct.error`
(byte string of the wrong total length). -/
def struct_unpack : List FieldChar → Bytes → Option (List FieldVal)
  | [], bs => if bs = [] then some [] else none
  | f :: fs, bs =>
    if f.width ≤ bs.length then
      (decode_field f (bs.take f.width)).bind (fun v =>
        (struct_unpack fs (bs.drop f.width)).map (v :: ·))
    else none

/-- Numeric value of a decimal digit character, `none` otherwise. -/
def digitVal (ch : Char) : Option Nat :=
  if '0' ≤ ch ∧ ch ≤ '9' then some (ch.toNat - 48) else none

/-- The struct field character denoted by `ch`, `none` for characters
outside the alphabet the spec fixes (the source asserts
`struct.calcsize(fmt) > 0`, which raises `struct.error` on others). -/
def charField : Char → Option FieldChar
  | 'b' => some .fb
  | 'B' => some .fB
  | 'h' => some .fh
  | 'H' => some .fH
  | 'i' => some .fi
  | 'I' => some .fI
  | 'q' => some .fq
  | 'Q' => some .fQ
  | 'f' => some .ff
  | 'd' => some .fd
  | _ => none

/-- Expansion of a struct format string into its field list: decimal
digits accumulate a repeat count applying to the following field
character (`struct` module format-string syntax). -/
def parseFieldsAux : List Char → Option Nat → Option (List FieldChar)
  | [], none => some []
  | [], some _ => none
  | ch :: rest, acc =>
    match digitVal ch with
    | some d => parseFieldsAux rest (some ((acc.getD 0) * 10 + d))
    | none =>
      match charField ch with
      | some fc => (parseFieldsAux rest none).map (List.replicate (acc.getD 1) fc ++ ·)
      | none => none

/-- Field list of a struct format string. -/
def parseFields (s : String) : Option (List FieldChar) :=
  parseFieldsAux s.data none

/-- Total byte size of a format string (`struct.calcsize`);
same-width numeric formats have no alignment padding. -/
def calcsize (fs : List FieldChar) : Nat :=
  (fs.map FieldChar.width).sum

/-- Number of fields of a `StructPacker` (`StructPacker._num_fields`,
computed in the source by unpacking a dummy buffer). -/
def num_fields (s : String) : Nat :=
  ((parseFields s).getD []).length

/-! ## TimestampBytesDB

A timestamped sub-store: a list of `(timestamp, value)` pairs held by
LMDB in strictly ascending key order.  Timestamps count microseconds
since the epoch (`DatetimePacker` packs `int(t * 1e6)` big-endian, so
lexicographic byte order equals numeric order). -/

/-- A store is sorted strictly ascending by timestamp: the invariant
LMDB maintains for its keys. -/
def SortedDB {V : Type} (db : List (Nat × V)) : Prop :=
  db.Pairwise (fun p q => p.1 < q.1)

instance {V : Type} (db : List (Nat × V)) : Decidable (SortedDB db) := by
  unfold SortedDB
  exact inferInstance

/-- The effect of `txn.put(key, value)`: overwrite the value under an
existing key or insert the pair at its sorted position. -/
def put {V : Type} : List (Nat × V) → Nat → V → List (Nat × V)
  | [], t, v => [(t, v)]
  | (k, w) :: rest, t, v =>
    if t < k then (t, v) :: (k, w) :: rest
    else if t = k then (t, v) :: rest
    else (k, w) :: put rest t v

/-- The cursor position used by `write_value` (timestamp_db.py lines
47-53): `cur.set_range(pack(date))` seeks to the first key at or after
`t`; on success `cur.prev()` steps to the entry just before it (invalid
when already at the first entry); on failure `cur.last()` moves to the
last entry (invalid when the store is empty).  On the sorted list the
first key at or after `t` heads `dropWhile (key < t)`, the entry before
it is the last of `takeWhile (key < t)`, and when no key is at or after
`t` the last entry of the store is also the last of
`takeWhile (key < t)`. -/
def cursor_before {V : Type} (db : List (Nat × V)) (t : Nat) : Option (Nat × V) :=
  if (db.dropWhile (fun p => p.1 < t)).isEmpty then
    db.getLast?
  else
    (db.takeWhile (fun p => p.1 < t)).getLast?

/-- Model of `TimestampBytesDB.write_value(date, value, only_if_value_changed,
max_age_seconds)` (timestamp_db.py lines 33-79).  `t` is the date in
microseconds, `maxAge` the `max_age_seconds` argument converted to
microseconds (`timedelta(seconds=m)`), and the byte-for-byte comparison
`last_value == value_packed` is equality of the stored byte strings.
Returns the new store contents and the value `write_value` returns
(`txn.put` returns `True` on a successful put; `False` is the early
return when the unchanged value is skipped).  The skip decision of
lines 46-69 is modelled as a named function. -/
def write_value_skip (db : List (Nat × Bytes)) (t : Nat) (v : Bytes)
    (only_if_value_changed : Bool) (maxAge : Option Nat) : Bool :=
  if only_if_value_changed then
    match cursor_before db t with
    | some (last_time, last_value) =>
      let check_value_changed_is_required :=
        match maxAge with
        | some m => decide ((t : Int) - (last_time : Int) < (m : Int))
        | none => true
      check_value_changed_is_required && (last_value == v)
    | none => false
  else false

/-- The store contents and return value of `write_value`: the early
`return False` fires exactly when `write_value_skip` holds, otherwise
`txn.put` runs and `True` is returned. -/
def write_value (db : List (Nat × Bytes)) (t : Nat) (v : Bytes)
    (only_if_value_changed : Bool) (maxAge : Option Nat) : List (Nat × Bytes) × Bool :=
  if write_value_skip db t v only_if_value_changed maxAge then (db, false)
  else (put db t v, true)

/-- The deletion loop of `delete_entries` (timestamp_db.py lines 112-118)
acting on the suffix of entries from the first key at or after `since`.
The loop condition re-reads the stale `key` captured before the loop
(line 112 is the only assignment), so once entered it never stops on
`until`; each iteration calls `c.delete()`, which removes the current
entry and repositions the cursor on its successor (documented py-lmdb
semantics, restated in the comment on line 110), and then `c.next()`,
which steps past that successor (it survives) or breaks at the end. -/
def del_alternate {V : Type} : List (Nat × V) → List (Nat × V)
  | [] => []
  | [_] => []
  | _ :: keep :: rest => keep :: del_alternate rest

/-- Result of a Python call that may raise. -/
inductive PyResult (α : Type)
  | raised
  | ok (a : α)
deriving DecidableEq

/-- Model of `TimestampBytesDB.delete_entries(since, until)` (timestamp_db.py
lines 81-122).  `none` bounds model the `None` defaults; comparisons of
`datetime` against `None` (empty store with an explicit bound on the
other side) raise `TypeError`, and `since > until` raises
`RuntimeError`, both modelled as `PyResult.raised`. -/
def delete_entries (db : List (Nat × Bytes)) (since? until? : Option Nat) :
    PyResult (List (Nat × Bytes) × Bool) :=
  let first := db.head?.map Prod.fst
  let last := db.getLast?.map Prod.fst
  -- `if since is None: since = first; elif since > last: return False`
  match since?, last with
  | some s, some l =>
    if s > l then .ok (db, false)
    else
      -- `if until is None: until = last; elif until < first: return False`
      match until?, first with
      | some u, some f =>
        if u < f then .ok (db, false)
        else if ¬ s ≤ u then .raised
        else .ok (delete_entries_core db s u)
      | some _, none => .raised
      | none, _ =>
        if ¬ s ≤ l then .raised
        else .ok (delete_entries_core db s l)
  | some _, none => .raised
  | none, _ =>
    match first with
    | none =>
      -- `since` stays `None`; every later comparison with it raises
      .raised
    | some f =>
      match until?, first with
      | some u, some _ =>
        if u < f then .ok (db, false)
        else if ¬ f ≤ u then .raised
        else .ok (delete_entries_core db f u)
      | _, _ =>
        match last with
        | some l =>
          if ¬ f ≤ l then .raised
          else .ok (delete_entries_core db f l)
        | none => .raised
where
  /-- The body guarded by `manager.db_exists` (lines 105-121):
  `c.set_range(pack(since))` positions at the first key at or after
  `since` (the suffix after `dropWhile (key < since)`); on failure the
  function returns `False`; the loop runs only when the captured `key`
  is at most `until`. -/
  delete_entries_core (db : List (Nat × Bytes)) (s u : Nat) :
      List (Nat × Bytes) × Bool :=
    let pre := db.takeWhile (fun p => p.1 < s)
    match db.dropWhile (fun p => p.1 < s) with
    | [] => (db, false)
    | (k, v) :: suffix =>
      if k ≤ u then (pre ++ del_alternate ((k, v) :: suffix), true)
      else (db, true)

/-- The producing loop of `_get_timespan` (timestamp_db.py lines
152-174) over the suffix starting at the first key at or after `since`:
an entry is yielded while its key is before `until` (or equal when
`endpoint` holds); after yielding, iteration continues only when a next
entry exists and the running count (just incremented) does not exceed
`limit`. -/
def timespan_loop {V : Type} : List (Nat × V) → Nat → Bool → Option Nat → Nat →
    List (Nat × V)
  | [], _, _, _, _ => []
  | (t, v) :: rest, u, endpoint, limit, count =>
    if t < u ∨ (endpoint ∧ t = u) then
      (t, v) ::
        (if !rest.isEmpty &&
            (match limit with | none => true | some n => decide (count + 1 ≤ n)) then
          timespan_loop rest u endpoint limit (count + 1)
        else [])
    else []

/-- Model of `TimestampBytesDB._get_timespan` (timestamp_db.py lines 124-174),
the generator behind `keys`/`values`/`items`.  `PyResult.raised` models
the `RuntimeError` on `since > until` after bound resolution. -/
def get_timespan (db : List (Nat × Bytes)) (since? until? : Option Nat)
    (endpoint : Bool) (limit : Option Nat) : PyResult (List (Nat × Bytes)) :=
  match db with
  | [] => .ok []
  | (f0, v0) :: rest =>
    let first := f0
    let last := (((f0, v0) :: rest).getLast (List.cons_ne_nil _ _)).1  -- nonempty
    let since := since?.getD first
    if ∃ s, since? = some s ∧ s > last then .ok []
    else
      let struct_until : Nat × Bool :=
        match until? with
        | none => (last, true)
        | some u => (u, endpoint)
      let untl := struct_until.1
      let ep := struct_until.2
      if ∃ u, until? = some u ∧ u < first then .ok []
      else if ¬ since ≤ untl then .raised
      else
        .ok (timespan_loop (((f0, v0) :: rest).dropWhile (fun p => p.1 < since))
          untl ep limit 0)

/-- Model of `TimestampBytesDB.keys(since, until, endpoint, limit)`
(timestamp_db.py lines 258-260). -/
def ts_keys (db : List (Nat × Bytes)) (since? until? : Option Nat)
    (endpoint : Bool) (limit : Option Nat) : PyResult (List Nat) :=
  match get_timespan db since? until? endpoint limit with
  | .raised => .raised
  | .ok l => .ok (l.map Prod.fst)

/-- Model of `TimestampBytesDB.values(since, until, endpoint, limit)`
(timestamp_db.py lines 231-233). -/
def ts_values (db : List (Nat × Bytes)) (since? until? : Option Nat)
    (endpoint : Bool) (limit : Option Nat) : PyResult (List Bytes) :=
  match get_timespan db since? until? endpoint limit with
  | .raised => .raised
  | .ok l => .ok (l.map Prod.snd)

/-- Model of `TimestampBytesDB.items(since, until, endpoint, limit)` without the
`first`/`last`/decimation branches (timestamp_db.py lines 235-248). -/
def ts_items (db : List (Nat × Bytes)) (since? until? : Option Nat)
    (endpoint : Bool) (limit : Option Nat) : PyResult (List (Nat × Bytes)) :=
  get_timespan db since? until? endpoint limit

/-- Modelled from the spec: the LOCF lookup `value_at_or_before(tq)`
of the `at` point query (spec 4.4), the value stored under the greatest
stored timestamp at or before `tq`.  The `at_timestamps` support of
`TimestampBytesDB._get_timespan`/`items`/`values` is referenced by its
callers (`LMDBSensorStorage.get_csv`/`get_json`) and by the test suite
but the implementation is absent from the sources, so it is modelled
from the spec here.  On the sorted store the last entry of
`filter (key ≤ tq)` is the entry with the greatest key at or before
`tq`. -/
def value_at_or_before {V : Type} (db : List (Nat × V)) (tq : Nat) : Option V :=
  ((db.filter (fun p => p.1 ≤ tq)).getLast?).map Prod.snd

/-- Modelled from the spec: the LOCF point query
`at(times, only_at_times=true)` (spec 4.4), surfaced in the code as
`items`/`values` called with `at_timestamps=iter(times)` and
`at_timestamps_only=True`: for each requested timestamp `tq` (a
monotonically non-decreasing iterator) emit `(tq, value_at_or_before
tq)`, skipping the pair when no stored value is at or before `tq`.
With `only_at_times` set, stored keys are not interleaved, and no
`since`/`until` bounds are given here so no window clipping applies. -/
def at_timestamps_only {V : Type} (db : List (Nat × V)) (times : List Nat) :
    List (Nat × V) :=
  times.filterMap (fun tq => (value_at_or_before db tq).map (fun v => (tq, v)))

/-! ## File-level model (`Manager`, `LMDBDict`, `Sensor`)

A file holds named sub-stores.  `Manager.get_transaction` calls
`env.open_db(name)`, which creates a missing sub-store (py-lmdb
`open_db` has `create=True`; the source's own `db_exists` docstring
records that read access to a non-existing database creates it), while
`Manager.db_exists` probes the root map without creating anything. -/

/-- A file: the association of sub-store names to timestamped
sub-store contents, in creation order (the root map of the file). -/
abbrev File := List (String × List (Nat × Bytes))

/-- Model of `Manager.db_exists(mdb_filename, db_name)` (_manager.py lines
85-106): probes the root map without creating the sub-store. -/
def db_exists (f : File) (n : String) : Bool :=
  (f.find? (fun p => p.1 == n)).isSome

/-- The sub-store creation performed by `env.open_db` inside
`Manager.get_transaction` (_manager.py lines 65-83): a missing
sub-store is created empty. -/
def open_db (f : File) (n : String) : File :=
  if db_exists f n then f else f ++ [(n, [])]

/-- Contents of a sub-store (empty for a missing one). -/
def lookup_db (f : File) (n : String) : Option (List (Nat × Bytes)) :=
  (f.find? (fun p => p.1 == n)).map Prod.snd

/-- Replacement of the contents of an existing sub-store. -/
def set_db (f : File) (n : String) (db : List (Nat × Bytes)) : File :=
  f.map (fun p => if p.1 == n then (n, db) else p)

/-- Model of `LMDBDict.__len__` via `_get_lmdb_stats` (dict_db.py lines 40-44,
205-210): opens a transaction on the sub-store — creating it when
missing — and returns its entry count.  The returned pair is
(result, file state after the call). -/
def len_op (f : File) (n : String) : Nat × File :=
  let f1 := open_db f n
  (((lookup_db f1 n).getD []).length, f1)

/-- Model of `LMDBDict._get` as used by `LMDBDict.keys` (dict_db.py lines 67-92):
guarded by `db_exists`, so a missing sub-store yields an empty result
without being created. -/
def dict_keys_op (f : File) (n : String) : List Nat × File :=
  if db_exists f n then (((lookup_db f n).getD []).map Prod.fst, f) else ([], f)

/-- Model of `TimestampBytesDB._get_sample` behind
`get_first_timestamp`/`get_last_value` etc. (timestamp_db.py lines
308-320): guarded by `db_exists`; returns the first or last key or
value, `none` on a missing or empty sub-store. -/
def get_sample_op (f : File) (n : String) (last get_value : Bool) :
    Option (Nat ⊕ Bytes) × File :=
  if db_exists f n then
    match (if last then ((lookup_db f n).getD []).getLast? else ((lookup_db f n).getD []).head?) with
    | none => (none, f)
    | some (k, v) => (some (if get_value then .inr v else .inl k), f)
  else (none, f)

/-- Model of `TimestampStringDB.get_last_value` on the format sub-store
(timestamp_db.py lines 283-284 with `_get_sample`): the last stored
value, `none` on a missing or empty sub-store; never creates. -/
def get_last_value_op (f : File) (n : String) : Option Bytes × File :=
  if db_exists f n then
    match ((lookup_db f n).getD []).getLast? with
    | none => (none, f)
    | some (_, v) => (some v, f)
  else (none, f)

/-- Model of `TimestampBytesDB.write_value` acting on a sub-store of a file:
`manager.get_transaction(..., write=True)` opens (and so creates) the
sub-store, then the conditional write of timestamp_db.py lines 44-79
runs on its contents. -/
def write_value_op (f : File) (n : String) (t : Nat) (v : Bytes)
    (only_if_value_changed : Bool) (maxAge : Option Nat) : File × Bool :=
  let f1 := open_db f n
  let db := (lookup_db f1 n).getD []
  let r := write_value db t v only_if_value_changed maxAge
  (set_db f1 n r.1, r.2)

/-- The format descriptors accepted by the `Sensor.data_format` setter
(sensor_db.py lines 83-108): the special strings select dedicated
packers, any other string must be a struct format of positive size
(`assert struct.calcsize(data_format) > 0`; a bad format character or a
zero size raises). -/
def valid_format (d : String) : Prop :=
  d = "json" ∨ d = "str" ∨ d = "bytes" ∨ d = "f" ∨
    (∃ fs, parseFields d = some fs ∧ 0 < calcsize fs)

instance (d : String) : Decidable (valid_format d) := by
  unfold valid_format
  have : Decidable (∃ fs, parseFields d = some fs ∧ 0 < calcsize fs) := by
    cases hp : parseFields d with
    | none => exact .isFalse (by simp [hp])
    | some fs =>
      cases Nat.decLt 0 (calcsize fs) with
      | isTrue h => exact .isTrue ⟨fs, rfl, h⟩
      | isFalse h => exact .isFalse (by simp [hp]; omega)
  exact inferInstance

/-- The `Sensor.data_format` setter (sensor_db.py lines 83-108) acting
on the file: with `none` it resets the in-memory packer and returns;
with a descriptor it validates it (raising on an unknown struct format)
and then stores the backend selection with
`format_db.write_value(datetime.now(), data_format,
only_if_value_changed=True)`.  `now` is the current wall-clock time in
microseconds; the descriptor is stored through `StringPacker` as its
UTF-8 bytes. -/
def data_format_set (f : File) (sensor_name : String) (d? : Option String)
    (now : Nat) : PyResult File :=
  match d? with
  | none => .ok f
  | some d =>
    if valid_format d then
      .ok (write_value_op f ("format_" ++ sensor_name) now (strToBytes d) true none).1
    else .raised

/-- Model of `Sensor.__init__` (sensor_db.py lines 42-57) as its effect on the
file: with an explicit `data_format` the setter runs with it; without
one the setter runs with `format_db.get_last_value()` (a string read
back from the format sub-store, or `None` when it is missing or
empty).  Constructing the metadata and notes views performs no file
access. -/
def sensor_init (f : File) (sensor_name : String) (fmt? : Option String)
    (now : Nat) : PyResult File :=
  match fmt? with
  | some d =>
    if d.isEmpty then
      -- `if data_format:` is a truthiness test: the empty string takes
      -- the no-format branch
      sensor_init_read f sensor_name now
    else data_format_set f sensor_name (some d) now
  | none => sensor_init_read f sensor_name now
where
  /-- The `else` branch of the constructor: the setter runs with
  `format_db.get_last_value()`. -/
  sensor_init_read (f : File) (sensor_name : String) (now : Nat) : PyResult File :=
    let r := get_last_value_op f ("format_" ++ sensor_name)
    match r.1 with
    | none => data_format_set r.2 sensor_name none now
    | some bs =>
      match utf8Decode bs with
      | some cps =>
        data_format_set r.2 sensor_name
          (some (String.mk (cps.map Char.ofNat))) now
      | none => .raised


/-! ## CSV export (`LMDBSensorStorage.get_csv`) -/

/-- The exact rational value of a binary64 datum (finite cases). -/
def Float64.val (f : Float64) : ℚ :=
  let s : ℚ := if f.sign then -1 else 1
  if f.exp = 0 then
    s * (f.frac : ℚ) / 2 ^ 52 * (2 ^ 1022)⁻¹
  else
    s * ((2 ^ 52 + f.frac : ℕ) : ℚ) / 2 ^ 52 * 2 ^ f.exp / 2 ^ 1023

/-- The exact value of a finite IEEE float with `mb` mantissa bits,
exponent bias `bias`, top exponent `maxExp` (infinities and NaNs) and
fields `sign`/`exp`/`frac`, when that value is a nonnegative integer;
`none` otherwise. -/
def fbits_int_value (mb maxExp bias : Nat) (sign : Bool) (exp frac : Nat) :
    Option Nat :=
  if sign then none
  else if exp = 0 then (if frac = 0 then some 0 else none)
  else if exp = maxExp then none
  else if exp < bias then none
  else if exp - bias ≤ mb then
    (if (2 ^ mb + frac) % 2 ^ (mb - (exp - bias)) = 0 then
      some ((2 ^ mb + frac) / 2 ^ (mb - (exp - bias)))
    else none)
  else some ((2 ^ mb + frac) * 2 ^ (exp - bias - mb))

/-- The exact nonnegative integer value of a binary32 datum, if any. -/
def f32_int_value (x : Float32) : Option Nat :=
  fbits_int_value 23 255 127 x.sign x.exp x.frac

/-- The exact nonnegative integer value of a binary64 datum, if any. -/
def f64_int_value (x : Float64) : Option Nat :=
  fbits_int_value 52 2047 1023 x.sign x.exp x.frac

/-- Python `str()` of a float, modelled for floats whose exact value is
a nonnegative integer (`str(1.0) == '1.0'` and so on), the only float
values the verified CSV scenario renders; other values are not
evaluated by any claim and render as the empty string. -/
def pyFloatStr (v : Option Nat) : String :=
  match v with
  | some n => toString n ++ ".0"
  | none => ""

/-- Python `str()` of one unpacked struct field. -/
def fieldValStr : FieldVal → String
  | .vint z => toString z
  | .v32 x => pyFloatStr (f32_int_value x)
  | .v64 x => pyFloatStr (f64_int_value x)

/-- Whether the `Sensor.data_format` setter (sensor_db.py lines 92-102)
selects a `StructPacker` for this descriptor: every descriptor other
than the four special strings. -/
def is_struct_packer (d : String) : Bool :=
  !(d == "json" || d == "str" || d == "bytes" || d == "f")

/-- Two-digit zero-padded decimal (`datetime.isoformat` field). -/
def two_digit_str (n : Nat) : String :=
  (if n < 10 then "0" else "") ++ toString n

/-- Six-digit zero-padded decimal (`datetime.isoformat` microseconds). -/
def six_digit_str (n : Nat) : String :=
  let s := toString n
  String.mk (List.replicate (6 - s.length) '0') ++ s

/-- Model of `datetime.isoformat()` for an instant `us` microseconds after
2000-01-01T00:00:00 (the scenario day; valid below 24 hours): the
microsecond part is printed as six digits exactly when nonzero. -/
def isoformat_us (us : Nat) : String :=
  let s := us / 1000000
  let frac := us % 1000000
  "2000-01-01T" ++ two_digit_str (s / 3600) ++ ":" ++ two_digit_str (s % 3600 / 60) ++
    ":" ++ two_digit_str (s % 60) ++ (if frac = 0 then "" else "." ++ six_digit_str frac)

/-- A sensor as `get_csv` sees it: its name, format descriptor, the
`field_names` metadata entry (`metadata.get('field_names', ())`, empty
when absent) and the packed contents of its data sub-store. -/
structure SensorModel where
  sensor_name : String
  data_format : String
  field_names : List String
  data : List (Nat × Bytes)

/-- Header cells contributed by one sensor (sensor_db.py lines 333-342):
a struct-format sensor expands to one column per subfield named from
`field_names` when its arity matches, else `Field <i>`; other sensors
contribute one quoted column. -/
def csv_header_cells (s : SensorModel) : List String :=
  if is_struct_packer s.data_format then
    let nf := num_fields s.data_format
    if s.field_names.length ≠ nf then
      (List.range nf).map (fun i => "\"" ++ s.sensor_name ++ " Field " ++ toString i ++ "\"")
    else
      s.field_names.map (fun fn => "\"" ++ s.sensor_name ++ " " ++ fn ++ "\"")
  else
    ["\"" ++ s.sensor_name ++ "\""]

/-- One data cell (sensor_db.py lines 352-356 composed with the
sub-store's `_value_packer.unpack` applied during `values()`): a struct
sensor joins the unpacked tuple with semicolons, a float sensor prints
the unpacked float, a string sensor the decoded string.  The `bytes`
and `json` renderings are not exercised by any claim and yield "". -/
def csv_cell (s : SensorModel) (bs : Bytes) : String :=
  if is_struct_packer s.data_format then
    String.intercalate ";"
      (((struct_unpack ((parseFields s.data_format).getD []) bs).getD []).map fieldValStr)
  else if s.data_format == "f" then
    match unpack_f32 bs with
    | some x => pyFloatStr (f32_int_value x)
    | none => ""
  else if s.data_format == "str" then
    match utf8Decode bs with
    | some cps => String.mk (cps.map Char.ofNat)
    | none => ""
  else ""

/-- Model of `LMDBSensorStorage._get_common_keys` (sensor_db.py lines 313-319):
every sensor's keys are appended when not yet seen, then the collected
list is sorted — the sorted union of the timestamps, the merged axis. -/
def common_keys (sensors : List SensorModel) : List Nat :=
  (sensors.foldl
    (fun acc s => s.data.foldl
      (fun acc2 p => if p.1 ∈ acc2 then acc2 else acc2 ++ [p.1]) acc) []).insertionSort (· ≤ ·)

/-- Model of `LMDBSensorStorage.get_csv` (sensor_db.py lines 321-358), collected
as the list of lines passed to the byte sink, one element per
`buffer_function` call.  The per-sensor value columns are the LOCF
query `values(at_timestamps=iter(keys), at_timestamps_only=True)`; row
`idx` renders `keys[idx]` in ISO format followed by each sensor's
cell `values[k][idx]` (aligned in the verified scenario, where every
sensor starts at the first merged timestamp). -/
def get_csv (sensors : List SensorModel) (include_header : Bool) : List String :=
  let header : List String :=
    if include_header then
      [String.intercalate ";" ("\"Time\"" :: (sensors.map csv_header_cells).flatten) ++ "\n"]
    else []
  let keys := common_keys sensors
  let values := sensors.map (fun s => (at_timestamps_only s.data keys).map Prod.snd)
  let rows := (List.range keys.length).map (fun idx =>
    let key := keys.getD idx 0
    let cells := (sensors.zip values).map
      (fun sv => csv_cell sv.1 ((sv.2.get? idx).getD []))
    String.intercalate ";" (isoformat_us key :: cells) ++ "\n")
  header ++ rows

/-! Scenario S3 of the spec / claim C2: three sensors with fixed
samples, timestamps in microseconds after t0 = 2000-01-01T00:00:00. -/

/-- Binary32 datum of 1.0. -/
def f32_1 : Float32 := ⟨false, 127, 0, by norm_num, by norm_num⟩

/-- Binary32 datum of 2.0. -/
def f32_2 : Float32 := ⟨false, 128, 0, by norm_num, by norm_num⟩

/-- Binary32 datum of 3.0. -/
def f32_3 : Float32 := ⟨false, 128, 2 ^ 22, by norm_num, by norm_num⟩

/-- Binary32 datum of 4.0. -/
def f32_4 : Float32 := ⟨false, 129, 0, by norm_num, by norm_num⟩

/-- Binary32 datum of 10.0. -/
def f32_10 : Float32 := ⟨false, 130, 2 ^ 21, by norm_num, by norm_num⟩

/-- Binary32 datum of 20.0. -/
def f32_20 : Float32 := ⟨false, 131, 2 ^ 21, by norm_num, by norm_num⟩

/-- Binary32 datum of 30.0. -/
def f32_30 : Float32 := ⟨false, 131, 7 * 2 ^ 20, by norm_num, by norm_num⟩

/-- Binary32 datum of 40.0. -/
def f32_40 : Float32 := ⟨false, 132, 2 ^ 21, by norm_num, by norm_num⟩

/-- Sensor `s1` of scenario S3: format `f`, samples 1,2,3,4 at
t0, t0+5s, t0+10.1s, t0+15s. -/
def sensor_s1 : SensorModel :=
  ⟨"s1", "f", [],
    [(0, pack_f32 f32_1), (5000000, pack_f32 f32_2), (10100000, pack_f32 f32_3),
      (15000000, pack_f32 f32_4)]⟩

/-- Sensor `s2` of scenario S3: format `f`, samples 10,20,30,40 at
t0, t0+5s, t0+6.5s, t0+15s. -/
def sensor_s2 : SensorModel :=
  ⟨"s2", "f", [],
    [(0, pack_f32 f32_10), (5000000, pack_f32 f32_20), (6500000, pack_f32 f32_30),
      (15000000, pack_f32 f32_40)]⟩

/-- Sensor `s3` of scenario S3: format `HH`, samples (100,101),
(200,201), (300,301), (400,401) at t0, t0+3s, t0+4.5s, t0+11s. -/
def sensor_s3 : SensorModel :=
  ⟨"s3", "HH", [],
    [(0, encode_uint 2 100 ++ encode_uint 2 101),
      (3000000, encode_uint 2 200 ++ encode_uint 2 201),
      (4500000, encode_uint 2 300 ++ encode_uint 2 301),
      (11000000, encode_uint 2 400 ++ encode_uint 2 401)]⟩

/-! ## Format guessing (`guess_format_string`, sensor_db.py 386-418) -/

/-- A Python value as `guess_format_string` inspects it.  Mapping
contents and iterable elements beyond their own classification do not
influence the result, numbers of all numeric types behave alike. -/
inductive PyData
  | pnum (z : Int)
  | pstr (s : String)
  | pbytes (b : Bytes)
  | pdict
  | plist (xs : List PyData)

/-- The exception class a failing `float()` raises. -/
inductive PyExc
  | valueError
  | typeError
deriving DecidableEq

/-- Python `float(x)`: succeeds on numbers; on `str`/`bytes` it parses
the text, raising `ValueError` on non-numeric text (the predicates
`numStr`/`numBytes` abstract Python's float literal grammar); on any
other type — `dict`, `list`, ... — it raises `TypeError`. -/
def py_float (numStr : String → Bool) (numBytes : Bytes → Bool) :
    PyData → Except PyExc Unit
  | .pnum _ => .ok ()
  | .pstr s => if numStr s then .ok () else .error .valueError
  | .pbytes b => if numBytes b then .ok () else .error .valueError
  | .pdict => .error .typeError
  | .plist _ => .error .typeError

/-- Model of `try_float` (sensor_db.py lines 386-391): `True` iff `float(x)`
raises neither `TypeError` nor `ValueError`. -/
def try_float (numStr : String → Bool) (numBytes : Bytes → Bool) (d : PyData) : Bool :=
  match py_float numStr numBytes d with
  | .ok _ => true
  | .error _ => false

/-- The first exception raised while evaluating
`[float(x) for x in d]` left to right, if any. -/
def first_float_exc (numStr : String → Bool) (numBytes : Bytes → Bool) :
    List PyData → Option PyExc
  | [] => none
  | x :: rest =>
    match py_float numStr numBytes x with
    | .ok _ => first_float_exc numStr numBytes rest
    | .error e => some e

/-- Model of `guess_format_string` (sensor_db.py lines 394-418).  The final
iterable branch wraps the comprehension in `try ... except ValueError:
pass`, so a `ValueError` falls through to the closing `return 'json'`
while a `TypeError` (for example from `float({})`) propagates. -/
def guess_format_string (numStr : String → Bool) (numBytes : Bytes → Bool) :
    PyData → Except PyExc String
  | d =>
    if try_float numStr numBytes d then .ok "f"
    else
      match d with
      | .pdict => .ok "json"
      | .pstr s => if try_float numStr numBytes (.pstr s) then .ok "f" else .ok "str"
      | .pbytes b => if try_float numStr numBytes (.pbytes b) then .ok "f" else .ok "bytes"
      | .plist xs =>
        match first_float_exc numStr numBytes xs with
        | none => .ok (toString xs.length ++ "f")
        | some .valueError => .ok "json"
        | some .typeError => .error .typeError
      | .pnum _ => .ok "json"

/-- Model of `BytesPacker.pack` (packer.py lines 22-25): the identity. -/
def bytes_pack (b : Bytes) : Bytes := b

/-- Model of `BytesPacker.unpack` (packer.py lines 27-28): the identity. -/
def bytes_unpack (b : Bytes) : Bytes := b

/-! ## Helper lemmas on sorted stores -/

/-! ## Theorems -/

theorem length_encode_uint (w n : Nat) : (encode_uint w n).length = w := by
  induction w generalizing n with
  | zero => rfl
  | succ w ih => simp [encode_uint, ih]

theorem decode_encode_uint (w n : Nat) (h : n < 256 ^ w) :
    decode_uint (encode_uint w n) = n := by
  induction w generalizing n with
  | zero =>
    simp [encode_uint, decode_uint]
    omega
  | succ w ih =>
    have hdiv : n / 256 < 256 ^ w := by
      rw [Nat.div_lt_iff_lt_mul (by norm_num)]
      calc n < 256 ^ (w + 1) := h
        _ = 256 ^ w * 256 := by ring
    simp only [encode_uint, decode_uint, ih _ hdiv]
    omega

theorem decode_encode_int (w : Nat) (z : Int) (hw : 0 < w)
    (hlo : -((256 ^ w / 2 : Nat) : Int) ≤ z) (hhi : z < ((256 ^ w / 2 : Nat) : Int)) :
    decode_int w (encode_int w z) = z := by
  have heven : 2 * (256 ^ w / 2) = 256 ^ w := by
    have : (2 : Nat) ∣ 256 ^ w := by
      apply dvd_pow _ (by omega)
      norm_num
    omega
  have hposn : 0 < 256 ^ w := Nat.pos_pow_of_pos w (by norm_num)
  have hc : ((256 ^ w : Nat) : Int) = (256 : Int) ^ w := by push_cast; ring
  rcases le_or_lt 0 z with hz | hz
  · have hzlt : z.toNat < 256 ^ w := by omega
    simp only [encode_int, if_pos hz, decode_int, decode_encode_uint w _ hzlt]
    have hlt2 : z.toNat < 256 ^ w / 2 := by omega
    simp only [if_pos hlt2]
    omega
  · have hlt : (z + 256 ^ w).toNat < 256 ^ w := by omega
    simp only [encode_int, if_neg (by omega : ¬ (0 : Int) ≤ z), decode_int,
      decode_encode_uint w _ hlt]
    have hnot : ¬ (z + 256 ^ w).toNat < 256 ^ w / 2 := by omega
    simp only [if_neg hnot]
    omega

theorem unpack_pack_f32 (f : Float32) : unpack_f32 (pack_f32 f) = some f := by
  obtain ⟨s, e, m, he, hm⟩ := f
  have hb : (Float32.mk s e m he hm).bits = m + 2 ^ 23 * e + 2 ^ 31 * (if s then 1 else 0) := rfl
  have hbits : (Float32.mk s e m he hm).bits < 2 ^ 32 := by
    rw [hb]
    rcases s with _ | _ <;> simp <;> omega
  have hlen : (pack_f32 ⟨s, e, m, he, hm⟩).length = 4 := length_encode_uint 4 _
  have hdec : decode_uint (pack_f32 ⟨s, e, m, he, hm⟩) = (Float32.mk s e m he hm).bits :=
    decode_encode_uint 4 _ (by exact_mod_cast hbits)
  simp only [unpack_f32, hdec, hlen, hbits, and_true, dif_pos]
  simp only [Option.some.injEq, Float32.mk.injEq]
  rcases s with _ | _
  · have hb0 : (Float32.mk false e m he hm).bits = m + 2 ^ 23 * e := by
      rw [hb]; simp
    rw [hb0]
    refine ⟨decide_eq_false (by omega), by omega, by omega⟩
  · have hb1 : (Float32.mk true e m he hm).bits = m + 2 ^ 23 * e + 2 ^ 31 := by
      rw [hb]; simp
    rw [hb1]
    refine ⟨decide_eq_true (by omega), by omega, by omega⟩

theorem utf8Decode_nil : utf8Decode [] = some [] := by
  rw [utf8Decode]
  rfl

theorem utf8Decode_cons_of_step (bs : Bytes) (c : Nat) (rest : Bytes)
    (h : utf8DecodeStep bs = some (c, rest)) :
    utf8Decode bs = (utf8Decode rest).map (c :: ·) := by
  rw [utf8Decode]
  split
  · rename_i c' rest' heq
    rw [h] at heq
    cases heq
    rfl
  · rename_i heq
    rw [h] at heq
    cases heq

theorem utf8DecodeStep_encodeChar (c : Nat) (hlt : c < 0x110000) (tail : Bytes) :
    utf8DecodeStep (utf8EncodeChar c ++ tail) = some (c, tail) := by
  by_cases h1 : c < 0x80
  · rw [utf8EncodeChar, if_pos h1, List.cons_append, List.nil_append, utf8DecodeStep,
      if_pos h1]
  · by_cases h2 : c < 0x800
    · rw [utf8EncodeChar, if_neg h1, if_pos h2, List.cons_append, List.cons_append,
        List.nil_append, utf8DecodeStep]
      rw [if_neg (by omega), if_pos (by omega)]
      simp only [List.head?_cons, Option.some_bind, List.tail_cons]
      rw [if_pos (by omega)]
      have he : (0xC0 + c / 64 - 0xC0) * 64 + (0x80 + c % 64 - 0x80) = c := by omega
      rw [he]
    · by_cases h3 : c < 0x10000
      · rw [utf8EncodeChar, if_neg h1, if_neg h2, if_pos h3, List.cons_append,
          List.cons_append, List.cons_append, List.nil_append, utf8DecodeStep]
        rw [if_neg (by omega), if_neg (by omega), if_pos (by omega)]
        simp only [List.get?_cons_zero, List.get?_cons_succ, Option.some_bind]
        rw [if_pos (by omega)]
        have he : (0xE0 + c / 4096 - 0xE0) * 4096 + (0x80 + c / 64 % 64 - 0x80) * 64 +
            (0x80 + c % 64 - 0x80) = c := by omega
        rw [he]
        rfl
      · rw [utf8EncodeChar, if_neg h1, if_neg h2, if_neg h3, List.cons_append,
          List.cons_append, List.cons_append, List.cons_append, List.nil_append,
          utf8DecodeStep]
        rw [if_neg (by omega), if_neg (by omega), if_neg (by omega)]
        simp only [List.get?_cons_zero, List.get?_cons_succ, Option.some_bind]
        rw [if_pos (by omega)]
        have he : (0xF0 + c / 262144 - 0xF0) * 262144 +
            (0x80 + c / 4096 % 64 - 0x80) * 4096 +
            (0x80 + c / 64 % 64 - 0x80) * 64 + (0x80 + c % 64 - 0x80) = c := by omega
        rw [he]
        rfl

theorem utf8Decode_encode (cs : List Nat) (h : ∀ c ∈ cs, validCodepoint c) :
    utf8Decode (utf8Encode cs) = some cs := by
  induction cs with
  | nil => exact utf8Decode_nil
  | cons c cs ih =>
    have hc : validCodepoint c := h c (by simp)
    have ihcs := ih (fun x hx => h x (by simp [hx]))
    have hsplit : utf8Encode (c :: cs) = utf8EncodeChar c ++ utf8Encode cs := by
      simp [utf8Encode]
    rw [hsplit, utf8Decode_cons_of_step _ c _ (utf8DecodeStep_encodeChar c hc.1 _), ihcs]
    rfl

theorem validCodepoint_toNat (ch : Char) : validCodepoint ch.toNat := by
  have h := ch.valid
  have he : ch.toNat = ch.val.toNat := rfl
  rw [validCodepoint, he]
  rcases h with h | h
  · omega
  · omega

theorem unpack_pack_f64 (f : Float64) : unpack_f64 (pack_f64 f) = some f := by
  obtain ⟨s, e, m, he, hm⟩ := f
  have hb : (Float64.mk s e m he hm).bits = m + 2 ^ 52 * e + 2 ^ 63 * (if s then 1 else 0) := rfl
  have hbits : (Float64.mk s e m he hm).bits < 2 ^ 64 := by
    rw [hb]
    rcases s with _ | _ <;> simp <;> omega
  have hlen : (pack_f64 ⟨s, e, m, he, hm⟩).length = 8 := length_encode_uint 8 _
  have hdec : decode_uint (pack_f64 ⟨s, e, m, he, hm⟩) = (Float64.mk s e m he hm).bits :=
    decode_encode_uint 8 _ (by exact_mod_cast hbits)
  simp only [unpack_f64, hdec, hlen, hbits, and_true, dif_pos]
  simp only [Option.some.injEq, Float64.mk.injEq]
  rcases s with _ | _
  · have hb0 : (Float64.mk false e m he hm).bits = m + 2 ^ 52 * e := by
      rw [hb]; simp
    rw [hb0]
    refine ⟨decide_eq_false (by omega), by omega, by omega⟩
  · have hb1 : (Float64.mk true e m he hm).bits = m + 2 ^ 52 * e + 2 ^ 63 := by
      rw [hb]; simp
    rw [hb1]
    refine ⟨decide_eq_true (by omega), by omega, by omega⟩

theorem length_encode_field (f : FieldChar) (v : FieldVal) (bs : Bytes)
    (h : encode_field f v = some bs) : bs.length = f.width := by
  cases f <;> cases v <;> simp only [encode_field] at h <;> first
    | exact Option.noConfusion h
    | (split at h
       · cases h
         simp [FieldChar.width, encode_int, length_encode_uint]
       · exact Option.noConfusion h)
    | (cases h
       simp [FieldChar.width, pack_f32, pack_f64, length_encode_uint])

theorem decode_encode_field (f : FieldChar) (v : FieldVal) (bs : Bytes)
    (h : encode_field f v = some bs) : decode_field f bs = some v := by
  cases f <;> cases v <;> simp only [encode_field] at h
  case fb.vint z =>
    by_cases hc : -128 ≤ z ∧ z < 128
    · rw [if_pos hc] at h
      cases h
      simp only [decode_field, Option.some.injEq, FieldVal.vint.injEq]
      exact decode_encode_int 1 z (by norm_num) (by norm_num; omega) (by norm_num; omega)
    · rw [if_neg hc] at h
      exact Option.noConfusion h
  case fh.vint z =>
    by_cases hc : -(2 ^ 15) ≤ z ∧ z < 2 ^ 15
    · rw [if_pos hc] at h
      cases h
      simp only [decode_field, Option.some.injEq, FieldVal.vint.injEq]
      exact decode_encode_int 2 z (by norm_num) (by norm_num; omega) (by norm_num; omega)
    · rw [if_neg hc] at h
      exact Option.noConfusion h
  case fi.vint z =>
    by_cases hc : -(2 ^ 31) ≤ z ∧ z < 2 ^ 31
    · rw [if_pos hc] at h
      cases h
      simp only [decode_field, Option.some.injEq, FieldVal.vint.injEq]
      exact decode_encode_int 4 z (by norm_num) (by norm_num; omega) (by norm_num; omega)
    · rw [if_neg hc] at h
      exact Option.noConfusion h
  case fq.vint z =>
    by_cases hc : -(2 ^ 63) ≤ z ∧ z < 2 ^ 63
    · rw [if_pos hc] at h
      cases h
      simp only [decode_field, Option.some.injEq, FieldVal.vint.injEq]
      exact decode_encode_int 8 z (by norm_num) (by norm_num; omega) (by norm_num; omega)
    · rw [if_neg hc] at h
      exact Option.noConfusion h
  case fB.vint z =>
    by_cases hc : 0 ≤ z ∧ z < 2 ^ 8
    · rw [if_pos hc] at h
      cases h
      simp only [decode_field, Option.some.injEq, FieldVal.vint.injEq]
      rw [decode_encode_uint 1 z.toNat (by norm_num; omega)]
      omega
    · rw [if_neg hc] at h
      exact Option.noConfusion h
  case fH.vint z =>
    by_cases hc : 0 ≤ z ∧ z < 2 ^ 16
    · rw [if_pos hc] at h
      cases h
      simp only [decode_field, Option.some.injEq, FieldVal.vint.injEq]
      rw [decode_encode_uint 2 z.toNat (by norm_num; omega)]
      omega
    · rw [if_neg hc] at h
      exact Option.noConfusion h
  case fI.vint z =>
    by_cases hc : 0 ≤ z ∧ z < 2 ^ 32
    · rw [if_pos hc] at h
      cases h
      simp only [decode_field, Option.some.injEq, FieldVal.vint.injEq]
      rw [decode_encode_uint 4 z.toNat (by norm_num; omega)]
      omega
    · rw [if_neg hc] at h
      exact Option.noConfusion h
  case fQ.vint z =>
    by_cases hc : 0 ≤ z ∧ z < 2 ^ 64
    · rw [if_pos hc] at h
      cases h
      simp only [decode_field, Option.some.injEq, FieldVal.vint.injEq]
      rw [decode_encode_uint 8 z.toNat (by norm_num; omega)]
      omega
    · rw [if_neg hc] at h
      exact Option.noConfusion h
  case ff.v32 x =>
    cases h
    simp [decode_field, unpack_pack_f32]
  case fd.v64 x =>
    cases h
    simp [decode_field, unpack_pack_f64]
  all_goals exact Option.noConfusion h

theorem struct_unpack_pack (fs : List FieldChar) (vs : List FieldVal) (bs : Bytes)
    (h : struct_pack fs vs = some bs) : struct_unpack fs bs = some vs := by
  induction fs generalizing vs bs with
  | nil =>
    match vs with
    | [] =>
      simp only [struct_pack, Option.some.injEq] at h
      subst h
      rfl
    | _ :: _ => exact Option.noConfusion h
  | cons f fs ih =>
    match vs with
    | [] => exact Option.noConfusion h
    | v :: vs =>
      simp only [struct_pack] at h
      cases henc : encode_field f v with
      | none => rw [henc] at h; exact Option.noConfusion h
      | some enc =>
        rw [henc] at h
        simp only [Option.some_bind] at h
        cases hrest : struct_pack fs vs with
        | none => rw [hrest] at h; exact Option.noConfusion h
        | some bsr =>
          rw [hrest] at h
          simp only [Option.map_some'] at h
          cases h
          have hlen : enc.length = f.width := length_encode_field f v enc henc
          simp only [struct_unpack]
          rw [if_pos (by simp [hlen])]
          rw [show (enc ++ bsr).take f.width = enc by
            rw [← hlen, List.take_left]]
          rw [show (enc ++ bsr).drop f.width = bsr by
            rw [← hlen, List.drop_left]]
          rw [decode_encode_field f v enc henc]
          simp only [Option.some_bind]
          rw [ih vs bsr hrest]
          rfl

theorem length_struct_unpack (fs : List FieldChar) (bs : Bytes) (vs : List FieldVal)
    (h : struct_unpack fs bs = some vs) : vs.length = fs.length := by
  induction fs generalizing bs vs with
  | nil =>
    simp only [struct_unpack] at h
    split at h
    · cases h
      rfl
    · exact Option.noConfusion h
  | cons f fs ih =>
    simp only [struct_unpack] at h
    split at h
    · cases hdec : decode_field f (bs.take f.width) with
      | none => rw [hdec] at h; exact Option.noConfusion h
      | some v =>
        rw [hdec] at h
        simp only [Option.some_bind] at h
        cases hrest : struct_unpack fs (bs.drop f.width) with
        | none => rw [hrest] at h; exact Option.noConfusion h
        | some vs' =>
          rw [hrest] at h
          simp only [Option.map_some'] at h
          cases h
          simp [ih _ _ hrest]
    · exact Option.noConfusion h

theorem getLast?_cons_ne_nil {A : Type} (a : A) (l : List A) (h : l ≠ []) :
    (a :: l).getLast? = l.getLast? := by
  match l, h with
  | b :: l2, _ => exact List.getLast?_cons_cons

theorem sorted_getLast_filter_spec {V : Type} (db : List (Nat × V)) (P : Nat → Bool)
    (hs : SortedDB db) :
    ((db.filter (fun p => P p.1)).getLast? = none → ∀ p ∈ db, ¬ P p.1) ∧
    (∀ q, (db.filter (fun p => P p.1)).getLast? = some q →
      q ∈ db ∧ P q.1 ∧ ∀ p ∈ db, P p.1 → p.1 ≤ q.1) := by
  induction db with
  | nil => exact ⟨fun _ p hp => absurd hp (by simp), fun q hq => by simp at hq⟩
  | cons a rest ih =>
    obtain ⟨ha, hrest⟩ := List.pairwise_cons.mp hs
    have ⟨ihn, ihs⟩ := ih hrest
    by_cases hPa : P a.1
    · constructor
      · intro hnone
        rw [List.filter_cons_of_pos (by simpa using hPa)] at hnone
        cases hfr : (rest.filter (fun p => P p.1)).getLast? with
        | none =>
          exfalso
          rcases List.getLast?_eq_none_iff.mp hfr with hfe
          rw [hfe] at hnone
          simp at hnone
        | some q =>
          exfalso
          have hne : rest.filter (fun p => P p.1) ≠ [] := by
            intro he
            rw [he] at hfr
            simp at hfr
          rw [getLast?_cons_ne_nil _ _ hne, hfr] at hnone
          exact Option.noConfusion hnone
      · intro q hq
        rw [List.filter_cons_of_pos (by simpa using hPa)] at hq
        cases hfr : (rest.filter (fun p => P p.1)).getLast? with
        | none =>
          have hfe : rest.filter (fun p => P p.1) = [] := List.getLast?_eq_none_iff.mp hfr
          rw [hfe] at hq
          simp only [List.getLast?_singleton, Option.some.injEq] at hq
          subst hq
          refine ⟨by simp, hPa, ?_⟩
          intro p hp hPp
          rcases List.mem_cons.mp hp with rfl | hp
          · exact le_refl _
          · exact absurd hPp (ihn (List.getLast?_eq_none_iff.mpr hfe) p hp)
        | some q0 =>
          have hne : rest.filter (fun p => P p.1) ≠ [] := by
            intro he
            rw [he] at hfr
            simp at hfr
          rw [getLast?_cons_ne_nil _ _ hne, hfr] at hq
          cases hq
          obtain ⟨hqmem, hqP, hqmax⟩ := ihs q hfr
          refine ⟨by simp [hqmem], hqP, ?_⟩
          intro p hp hPp
          rcases List.mem_cons.mp hp with rfl | hp
          · exact le_of_lt (ha q hqmem)
          · exact hqmax p hp hPp
    · rw [List.filter_cons_of_neg (by simpa using hPa)]
      constructor
      · intro hnone p hp
        rcases List.mem_cons.mp hp with rfl | hp
        · exact hPa
        · exact ihn hnone p hp
      · intro q hq
        obtain ⟨hqmem, hqP, hqmax⟩ := ihs q hq
        refine ⟨by simp [hqmem], hqP, ?_⟩
        intro p hp hPp
        rcases List.mem_cons.mp hp with rfl | hp
        · exact absurd hPp hPa
        · exact hqmax p hp hPp

theorem takeWhile_lt_eq_filter {V : Type} (db : List (Nat × V)) (t : Nat)
    (hs : SortedDB db) :
    db.takeWhile (fun p => p.1 < t) = db.filter (fun p => p.1 < t) := by
  induction db with
  | nil => rfl
  | cons a rest ih =>
    obtain ⟨ha, hrest⟩ := List.pairwise_cons.mp hs
    by_cases hat : a.1 < t
    · rw [List.takeWhile_cons_of_pos (by simpa using hat),
        List.filter_cons_of_pos (by simpa using hat), ih hrest]
    · rw [List.takeWhile_cons_of_neg (by simpa using hat),
        List.filter_cons_of_neg (by simpa using hat)]
      have : rest.filter (fun p => p.1 < t) = [] := by
        rw [List.filter_eq_nil_iff]
        intro p hp
        have := ha p hp
        simp only [decide_eq_true_eq]
        omega
      rw [this]

theorem cursor_before_eq {V : Type} (db : List (Nat × V)) (t : Nat) (hs : SortedDB db) :
    cursor_before db t = (db.filter (fun p => p.1 < t)).getLast? := by
  rw [cursor_before]
  split
  · rename_i hempty
    have hd : db.dropWhile (fun p => p.1 < t) = [] := by
      rwa [List.isEmpty_iff] at hempty
    have ht : db.takeWhile (fun p => p.1 < t) = db := by
      have := List.takeWhile_append_dropWhile (p := fun p => p.1 < t) (l := db)
      rw [hd, List.append_nil] at this
      exact this
    rw [← takeWhile_lt_eq_filter db t hs, ht]
  · exact takeWhile_lt_eq_filter db t hs ▸ rfl

theorem mem_put {V : Type} (db : List (Nat × V)) (t : Nat) (v : V) (p : Nat × V)
    (hp : p ∈ put db t v) : p ∈ db ∨ p = (t, v) := by
  induction db with
  | nil =>
    simp only [put, List.mem_singleton] at hp
    exact Or.inr hp
  | cons a rest ih =>
    simp only [put] at hp
    split at hp
    · rcases List.mem_cons.mp hp with rfl | hp
      · exact Or.inr rfl
      · exact Or.inl hp
    · split at hp
      · rcases List.mem_cons.mp hp with rfl | hp
        · exact Or.inr rfl
        · exact Or.inl (List.mem_cons_of_mem _ hp)
      · rcases List.mem_cons.mp hp with rfl | hp
        · exact Or.inl (List.mem_cons_self _ _)
        · rcases ih hp with h | h
          · exact Or.inl (List.mem_cons_of_mem _ h)
          · exact Or.inr h

theorem put_sorted {V : Type} (db : List (Nat × V)) (t : Nat) (v : V)
    (hs : SortedDB db) : SortedDB (put db t v) := by
  induction db with
  | nil => simp [put, SortedDB]
  | cons a rest ih =>
    obtain ⟨ha, hrest⟩ := List.pairwise_cons.mp hs
    simp only [put]
    split
    · rename_i hlt
      refine List.pairwise_cons.mpr ⟨?_, hs⟩
      intro p hp
      rcases List.mem_cons.mp hp with rfl | hp
      · exact hlt
      · exact lt_trans hlt (ha p hp)
    · split
      · rename_i hne heq
        subst heq
        exact List.pairwise_cons.mpr ⟨ha, hrest⟩
      · rename_i hne hne2
        refine List.pairwise_cons.mpr ⟨?_, ih hrest⟩
        intro p hp
        rcases mem_put rest t v p hp with h | rfl
        · exact ha p h
        · omega

theorem length_put_le {V : Type} (db : List (Nat × V)) (t : Nat) (v : V) :
    (put db t v).length ≤ db.length + 1 := by
  induction db with
  | nil => simp [put]
  | cons a rest ih =>
    simp only [put]
    split
    · simp
    · split
      · simp
      · simpa using Nat.succ_le_succ ih

theorem length_put_mem {V : Type} (db : List (Nat × V)) (t : Nat) (v : V)
    (hs : SortedDB db) (hmem : t ∈ db.map Prod.fst) :
    (put db t v).length = db.length := by
  induction db with
  | nil => simp at hmem
  | cons a rest ih =>
    obtain ⟨ha, hrest⟩ := List.pairwise_cons.mp hs
    simp only [List.map_cons, List.mem_cons] at hmem
    simp only [put]
    split
    · rename_i hlt
      exfalso
      rcases hmem with heq | hmem
      · omega
      · obtain ⟨p, hp, hpt⟩ := List.mem_map.mp hmem
        have := ha p hp
        omega
    · split
      · simp
      · rename_i hne hne2
        rcases hmem with heq | hmem
        · omega
        · simpa using ih hrest hmem

theorem countP_key_le_one {V : Type} (db : List (Nat × V)) (t : Nat)
    (hs : SortedDB db) : db.countP (fun p => p.1 == t) ≤ 1 := by
  induction db with
  | nil => simp
  | cons a rest ih =>
    obtain ⟨ha, hrest⟩ := List.pairwise_cons.mp hs
    by_cases hat : a.1 = t
    · have hz : rest.countP (fun p => p.1 == t) = 0 := by
        rw [List.countP_eq_zero]
        intro p hp
        have := ha p hp
        simp only [beq_iff_eq]
        omega
      rw [List.countP_cons]
      have hbeq : (a.1 == t) = true := by simpa using hat
      simp [hz, hbeq]
    · rw [List.countP_cons]
      have : (a.1 == t) = false := by simpa using hat
      simp only [this, if_false, Nat.add_zero]
      exact ih hrest

theorem put_eq_append {V : Type} (db : List (Nat × V)) (t : Nat) (v : V)
    (h : ∀ p ∈ db, p.1 < t) : put db t v = db ++ [(t, v)] := by
  induction db with
  | nil => rfl
  | cons a rest ih =>
    have hat : a.1 < t := h a (List.mem_cons_self _ _)
    simp only [put, if_neg (by omega : ¬ t < a.1), if_neg (by omega : ¬ t = a.1),
      List.cons_append]
    rw [ih (fun p hp => h p (List.mem_cons_of_mem _ hp))]

theorem write_value_fst_cases (db : List (Nat × Bytes)) (t : Nat) (v : Bytes)
    (only : Bool) (m : Option Nat) :
    (write_value db t v only m).1 = db ∨ (write_value db t v only m).1 = put db t v := by
  simp only [write_value]
  cases write_value_skip db t v only m <;> simp

theorem mem_keys_put {V : Type} (db : List (Nat × V)) (t : Nat) (v : V) :
    t ∈ (put db t v).map Prod.fst := by
  induction db with
  | nil => simp [put]
  | cons a rest ih =>
    simp only [put]
    split
    · simp
    · split
      · simp
      · simpa using Or.inr (by simpa using ih)

theorem mem_dropWhile_lt {V : Type} (db : List (Nat × V)) (s : Nat)
    (hs : SortedDB db) (p : Nat × V) (hp : p ∈ db.dropWhile (fun q => q.1 < s)) :
    p ∈ db ∧ s ≤ p.1 := by
  induction db with
  | nil => simp at hp
  | cons a rest ih =>
    obtain ⟨ha, hrest⟩ := List.pairwise_cons.mp hs
    by_cases has : a.1 < s
    · rw [List.dropWhile_cons_of_pos (by simpa using has)] at hp
      obtain ⟨hm, hb⟩ := ih hrest hp
      exact ⟨List.mem_cons_of_mem _ hm, hb⟩
    · rw [List.dropWhile_cons_of_neg (by simpa using has)] at hp
      rcases List.mem_cons.mp hp with rfl | hp
      · exact ⟨List.mem_cons_self _ _, by omega⟩
      · refine ⟨List.mem_cons_of_mem _ hp, ?_⟩
        have := ha p hp
        omega

theorem timespan_loop_mem {V : Type} (rest : List (Nat × V)) (u : Nat) (ep : Bool)
    (lim : Option Nat) (c : Nat) (p : Nat × V)
    (hp : p ∈ timespan_loop rest u ep lim c) :
    p ∈ rest ∧ (p.1 < u ∨ (ep ∧ p.1 = u)) := by
  induction rest generalizing c with
  | nil => simp [timespan_loop] at hp
  | cons a rest ih =>
    obtain ⟨t, v⟩ := a
    simp only [timespan_loop] at hp
    split at hp
    · rcases List.mem_cons.mp hp with rfl | hp
      · rename_i hcond
        exact ⟨List.mem_cons_self _ _, hcond⟩
      · split at hp
        · obtain ⟨hm, hb⟩ := ih _ hp
          exact ⟨List.mem_cons_of_mem _ hm, hb⟩
        · simp at hp
    · simp at hp

theorem timespan_loop_length {V : Type} (rest : List (Nat × V)) (u : Nat) (ep : Bool)
    (n : Nat) (c : Nat) (hc : c ≤ n) :
    (timespan_loop rest u ep (some n) c).length ≤ n + 1 - c := by
  induction rest generalizing c with
  | nil => simp [timespan_loop]
  | cons a rest ih =>
    obtain ⟨t, v⟩ := a
    simp only [timespan_loop]
    split
    · split
      · rename_i hcont
        simp only [Bool.and_eq_true, decide_eq_true_eq] at hcont
        have hcn : c + 1 ≤ n := hcont.2
        have := ih (c + 1) hcn
        simp only [List.length_cons]
        omega
      · simp only [List.length_cons, List.length_nil]
        omega
    · simp

/-- C1: for every sorted store and query timestamp `tq` at or after the
first stored timestamp, the LOCF point query `at([tq])` with
`at_timestamps_only` returns exactly one pair `(tq, v)` with `v` the
value stored under the greatest timestamp at or before `tq`; when `tq`
precedes every stored timestamp nothing is emitted. -/
theorem C1_locf_point_query {V : Type} (db : List (Nat × V)) (tq : Nat)
    (hs : SortedDB db) :
    ((∃ p ∈ db, p.1 ≤ tq) →
      ∃ t v, at_timestamps_only db [tq] = [(tq, v)] ∧ (t, v) ∈ db ∧ t ≤ tq ∧
        ∀ q ∈ db, q.1 ≤ tq → q.1 ≤ t) ∧
    ((∀ p ∈ db, tq < p.1) → at_timestamps_only db [tq] = []) := by
  have hspec := sorted_getLast_filter_spec db (fun k => decide (k ≤ tq)) hs
  constructor
  · rintro ⟨p, hp, hple⟩
    cases hl : (db.filter (fun p => decide (p.1 ≤ tq))).getLast? with
    | none =>
      have := hspec.1 hl p hp
      simp only [decide_eq_true_eq] at this
      exact absurd hple this
    | some q =>
      obtain ⟨t0, v0⟩ := q
      obtain ⟨hqmem, hqP, hqmax⟩ := hspec.2 _ hl
      simp only [decide_eq_true_eq] at hqP
      refine ⟨t0, v0, ?_, hqmem, hqP, ?_⟩
      · have hv : value_at_or_before db tq = some v0 := by
          rw [value_at_or_before, hl]
          rfl
        simp [at_timestamps_only, hv]
      · intro r hr hrle
        exact hqmax r hr (by simpa using hrle)
  · intro hall
    have hl : (db.filter (fun p => decide (p.1 ≤ tq))).getLast? = none := by
      rw [List.getLast?_eq_none_iff, List.filter_eq_nil_iff]
      intro p hp
      have := hall p hp
      simp only [decide_eq_true_eq]
      omega
    have hv : value_at_or_before db tq = none := by
      rw [value_at_or_before, hl]
      rfl
    simp [at_timestamps_only, hv]

/-- Witness for C1 at a concrete store and query timestamp. -/
theorem C1_locf_point_query_witness :
    (∃ p ∈ ([(1, [49]), (3, [50])] : List (Nat × Bytes)), p.1 ≤ 2) ∧
    (∃ t v, at_timestamps_only ([(1, [49]), (3, [50])] : List (Nat × Bytes)) [2] = [(2, v)] ∧
      (t, v) ∈ ([(1, [49]), (3, [50])] : List (Nat × Bytes)) ∧ t ≤ 2 ∧
      ∀ q ∈ ([(1, [49]), (3, [50])] : List (Nat × Bytes)), q.1 ≤ 2 → q.1 ≤ t) :=
  ⟨by decide,
    (C1_locf_point_query [(1, [49]), (3, [50])] 2 (by decide)).1 (by decide)⟩

/-- C3: `write_value(t, v, only_if_value_changed, max_age)` follows the
claimed algorithm — the cursor lands on the entry with the greatest
timestamp before `t` (first key at or after `t`, one step back, else
the last key); with an empty cursor the value is written; with
`max_age` set and `t - cursor_time ≥ max_age` it is written
unconditionally; otherwise it is written iff the stored bytes differ
from the packed value — and returns `True` iff a write occurred.  The
claimed S2 counts follow: after `write(t0, b'1')` the count is 1; a
changed-suppressed rewrite 60 s later keeps it 1; the same write with
`only_if_value_changed=False` makes it 2; a day later with
`max_age=3600 s` the freshness override makes it 3. -/
theorem C3_write_value_algorithm :
    (∀ (db : List (Nat × Bytes)) (t : Nat) (v : Bytes) (only : Bool) (m : Option Nat),
      SortedDB db →
      write_value db t v only m =
        match (db.filter (fun p => p.1 < t)).getLast? with
        | none => (put db t v, true)
        | some (lt, lv) =>
          if only && ((match m with
              | some mv => decide ((t : Int) - (lt : Int) < (mv : Int))
              | none => true) && (lv == v)) then (db, false)
          else (put db t v, true)) ∧
    ((write_value [] 0 [49] false none).1.length = 1 ∧
      write_value [(0, [49])] 60000000 [49] true none = ([(0, [49])], false) ∧
      (write_value [(0, [49])] 60000000 [49] false none).1.length = 2 ∧
      (write_value [(0, [49]), (60000000, [49])] 86400000000 [49] true
        (some 3600000000)).1.length = 3) := by
  constructor
  · intro db t v only m hs
    have hc := cursor_before_eq db t hs
    simp only [write_value, write_value_skip, hc]
    cases hl : (db.filter (fun p => p.1 < t)).getLast? with
    | none =>
      cases only <;> simp
    | some q =>
      obtain ⟨lt, lv⟩ := q
      cases only
      · simp
      · simp
  · refine ⟨by decide, by decide, by decide, by decide⟩

/-- Witness for C3 at a concrete store, timestamp and value. -/
theorem C3_write_value_algorithm_witness :
    write_value [(0, [49])] 60000000 [49] true none =
      match (([(0, [49])] : List (Nat × Bytes)).filter (fun p => p.1 < 60000000)).getLast? with
      | none => (put [(0, [49])] 60000000 [49], true)
      | some (lt, lv) =>
        if true && ((match (none : Option Nat) with
            | some mv => decide ((60000000 : Int) - (lt : Int) < (mv : Int))
            | none => true) && (lv == [49])) then ([(0, [49])], false)
        else (put [(0, [49])] 60000000 [49], true) :=
  (C3_write_value_algorithm.1 [(0, [49])] 60000000 [49] true none (by decide))

/-- C2: `get_csv([s1,s2,s3], include_header=True)` on the S3 scenario
sensors emits exactly 9 lines: the header
`"Time";"s1";"s2";"s3 Field 0";"s3 Field 1"` and one LOCF-filled row
per merged-axis timestamp t0, t0+3, t0+4.5, t0+5, t0+6.5, t0+10.1,
t0+11, t0+15, the packed sensor expanding to one column per subfield. -/
theorem C2_get_csv_scenario :
    get_csv [sensor_s1, sensor_s2, sensor_s3] true =
      ["\"Time\";\"s1\";\"s2\";\"s3 Field 0\";\"s3 Field 1\"\n",
        "2000-01-01T00:00:00;1.0;10.0;100;101\n",
        "2000-01-01T00:00:03;1.0;10.0;200;201\n",
        "2000-01-01T00:00:04.500000;1.0;10.0;300;301\n",
        "2000-01-01T00:00:05;2.0;20.0;300;301\n",
        "2000-01-01T00:00:06.500000;2.0;30.0;300;301\n",
        "2000-01-01T00:00:10.100000;3.0;30.0;300;301\n",
        "2000-01-01T00:00:11;3.0;30.0;400;401\n",
        "2000-01-01T00:00:15;4.0;40.0;400;401\n"] := by
  rfl

theorem f32_scenario_vals :
    f32_1.val = 1 ∧ f32_2.val = 2 ∧ f32_3.val = 3 ∧ f32_4.val = 4 ∧
    f32_10.val = 10 ∧ f32_20.val = 20 ∧ f32_30.val = 30 ∧ f32_40.val = 40 := by
  norm_num [Float32.val, f32_1, f32_2, f32_3, f32_4, f32_10, f32_20, f32_30, f32_40]

/-- C4 (failing input): on the store with keys t0, t0+1s, t0+2s, t0+3s,
`delete_entries(since=t0, until=t0+1s)` does not remove exactly the
inclusive window — it removes t0 and t0+2s (the loop condition tests a
stale key and `next()` after `delete()` skips the entry the deletion
advanced to), leaving keys t0+1s and t0+3s instead of t0+2s and t0+3s. -/
theorem C4_delete_entries_failing_input :
    delete_entries [(0, [48]), (1000000, [49]), (2000000, [50]), (3000000, [51])]
        (some 0) (some 1000000) =
      .ok ([(1000000, [49]), (3000000, [51])], true) ∧
    delete_entries [(0, [48]), (1000000, [49]), (2000000, [50]), (3000000, [51])]
        (some 0) (some 1000000) ≠
      .ok ([(2000000, [50]), (3000000, [51])], true) := by
  constructor
  · rfl
  · decide

/-- C5 (counterexample): with three stored entries, `keys(limit=1)`
produces two rows, not at most one — the loop continues while the
incremented count is still at most `limit`, admitting one extra row. -/
theorem C5_limit_counterexample :
    ts_keys [(0, [48]), (1000000, [49]), (2000000, [50])] none none false (some 1) =
      .ok [0, 1000000] ∧
    ¬ ([0, 1000000] : List Nat).length ≤ 1 := by
  constructor
  · rfl
  · decide

/-- C7 (failing input): reading `len()` of a sub-store name absent from
the file returns 0 but creates the sub-store — `_get_lmdb_stats` opens
a transaction through `Manager.get_transaction`, whose `env.open_db`
creates missing sub-stores, unlike the `db_exists`-guarded reads such
as `keys()` which return empty and leave the file unchanged. -/
theorem C7_missing_substore_read_creates :
    db_exists [("data_temp", [(0, [49])])] "data_hum" = false ∧
    (len_op [("data_temp", [(0, [49])])] "data_hum").1 = 0 ∧
    (len_op [("data_temp", [(0, [49])])] "data_hum").2 =
      [("data_temp", [(0, [49])]), ("data_hum", [])] ∧
    db_exists (len_op [("data_temp", [(0, [49])])] "data_hum").2 "data_hum" = true ∧
    dict_keys_op [("data_temp", [(0, [49])])] "data_hum" =
      ([], [("data_temp", [(0, [49])])]) := by
  refine ⟨rfl, rfl, rfl, rfl, rfl⟩

/-- C9 (failing input): `guess_format_string` is not total: on a list
containing a mapping — Python value `[{}]` — the comprehension's
`float({})` raises `TypeError`, which the `except ValueError` clause
does not catch, so the call raises instead of returning `'json'`;
this holds for every parsing behavior of numeric strings and bytes. -/
theorem C9_guess_format_raises (numStr : String → Bool) (numBytes : Bytes → Bool) :
    guess_format_string numStr numBytes (.plist [.pdict]) = .error .typeError := by
  rfl

/-- C5 (amended): `keys`/`values`/`items` with `limit=n` produce at most
n+1 rows (the loop admits one extra row after the count reaches the
limit), not at most n; produced rows are stored samples whose
timestamps satisfy `since ≤ t`, and `t < until` — or `t ≤ until` when
`endpoint` — for given bounds; an absent `until` makes the endpoint
implicitly inclusive (the rows are then bounded only by the data). -/
theorem C5_limit_window_amended (db : List (Nat × Bytes)) (since? until? : Option Nat)
    (ep : Bool) (n : Nat) (l : List (Nat × Bytes)) (hs : SortedDB db)
    (h : get_timespan db since? until? ep (some n) = .ok l) :
    l.length ≤ n + 1 ∧
    (∀ p ∈ l, p ∈ db) ∧
    (∀ p ∈ l, ∀ s, since? = some s → s ≤ p.1) ∧
    (∀ p ∈ l, ∀ u, until? = some u → (p.1 < u ∨ (ep ∧ p.1 = u))) ∧
    (∀ lk, ts_keys db since? until? ep (some n) = .ok lk → lk.length ≤ n + 1) ∧
    (∀ lv, ts_values db since? until? ep (some n) = .ok lv → lv.length ≤ n + 1) := by
  have hkv : ∀ bound : l.length ≤ n + 1,
      (∀ lk, ts_keys db since? until? ep (some n) = .ok lk → lk.length ≤ n + 1) ∧
      (∀ lv, ts_values db since? until? ep (some n) = .ok lv → lv.length ≤ n + 1) := by
    intro bound
    constructor
    · intro lk hk
      rw [ts_keys, h] at hk
      cases hk
      simpa using bound
    · intro lv hv
      rw [ts_values, h] at hv
      cases hv
      simpa using bound
  cases db with
  | nil =>
    simp only [get_timespan, PyResult.ok.injEq] at h
    subst h
    refine ⟨by simp, by simp, by simp, by simp, ?_, ?_⟩
    · intro lk hk
      rw [ts_keys, get_timespan] at hk
      cases hk
      simp
    · intro lv hv
      rw [ts_values, get_timespan] at hv
      cases hv
      simp
  | cons hd rest =>
    obtain ⟨f0, v0⟩ := hd
    simp only [get_timespan] at h
    split at h
    · cases h
      exact ⟨by simp, by simp, by simp, by simp, (hkv (by simp)).1, (hkv (by simp)).2⟩
    · split at h
      · cases h
        exact ⟨by simp, by simp, by simp, by simp, (hkv (by simp)).1, (hkv (by simp)).2⟩
      · split at h
        · exact PyResult.noConfusion h
        · cases h
          rename_i hnex hnuex hle
          set D := ((f0, v0) :: rest).dropWhile
            (fun p => p.1 < since?.getD f0) with hD
          set untl := (match until? with
            | none => ((((f0, v0) :: rest).getLast (List.cons_ne_nil _ _)).1, true)
            | some u => (u, ep)).1 with huntl
          set epe := (match until? with
            | none => ((((f0, v0) :: rest).getLast (List.cons_ne_nil _ _)).1, true)
            | some u => (u, ep)).2 with hepe
          have hlen : (timespan_loop D untl epe (some n) 0).length ≤ n + 1 := by
            have := timespan_loop_length D untl epe n 0 (Nat.zero_le n)
            omega
          have hmem : ∀ p ∈ timespan_loop D untl epe (some n) 0,
              p ∈ (f0, v0) :: rest ∧ since?.getD f0 ≤ p.1 := by
            intro p hp
            have h1 := timespan_loop_mem D untl epe (some n) 0 p hp
            exact mem_dropWhile_lt _ _ hs p h1.1
          refine ⟨hlen, fun p hp => (hmem p hp).1, ?_, ?_, (hkv hlen).1, (hkv hlen).2⟩
          · intro p hp s hss
            have := (hmem p hp).2
            rw [hss] at this
            simpa using this
          · intro p hp u huu
            have h1 := (timespan_loop_mem D untl epe (some n) 0 p hp).2
            rw [huu] at huntl hepe
            simp only [huntl, hepe] at h1 ⊢
            exact h1

/-- Witness for the amended C5 at a concrete store and limit. -/
theorem C5_limit_window_amended_witness :
    SortedDB [(0, [48]), (1000000, [49]), (2000000, [50])] ∧
    ([(0, [48]), (1000000, [49])] : List (Nat × Bytes)).length ≤ 1 + 1 :=
  ⟨by decide,
    (C5_limit_window_amended [(0, [48]), (1000000, [49]), (2000000, [50])]
      none none false 1 [(0, [48]), (1000000, [49])] (by decide) (by rfl)).1⟩

/-- C6: each packer selected by a format descriptor satisfies
`unpack(pack(v)) == v` on its admissible values: exactly for `bytes`
(the identity) and `str` (UTF-8 encoding of the code points, shown both
for admissible code-point sequences and for every Lean string);
exactly at the 4-byte IEEE-754 binary32 representation `struct.pack('f',
...)` rounds to for `f`; and element-wise with the declared field
widths for packed-tuple descriptors, where unpack always returns a
tuple of the declared arity. -/
theorem C6_packer_roundtrip :
    (∀ bs : Bytes, bytes_unpack (bytes_pack bs) = bs) ∧
    (∀ cs : List Nat, (∀ c ∈ cs, validCodepoint c) → utf8Decode (utf8Encode cs) = some cs) ∧
    (∀ s : String, utf8Decode (strToBytes s) = some (s.data.map Char.toNat)) ∧
    (∀ x : Float32, unpack_f32 (pack_f32 x) = some x) ∧
    (∀ (d : String) (fs : List FieldChar) (vs : List FieldVal) (bs : Bytes),
      parseFields d = some fs → struct_pack fs vs = some bs →
      struct_unpack fs bs = some vs ∧ vs.length = fs.length) := by
  refine ⟨fun bs => rfl, utf8Decode_encode, ?_, unpack_pack_f32, ?_⟩
  · intro s
    apply utf8Decode_encode
    intro c hc
    obtain ⟨ch, _, rfl⟩ := List.mem_map.mp hc
    exact validCodepoint_toNat ch
  · intro d fs vs bs hparse hpack
    have hu := struct_unpack_pack fs vs bs hpack
    exact ⟨hu, length_struct_unpack fs bs vs hu⟩

/-- Witness for C6 at concrete values of each packer kind. -/
theorem C6_packer_roundtrip_witness :
    utf8Decode (utf8Encode [72, 8364, 128021]) = some [72, 8364, 128021] ∧
    utf8Decode (strToBytes "HH") = some ("HH".data.map Char.toNat) ∧
    struct_unpack [.fH, .fH] (encode_uint 2 100 ++ encode_uint 2 101) =
      some [.vint 100, .vint 101] ∧
    ([FieldVal.vint 100, FieldVal.vint 101] : List FieldVal).length =
      ([FieldChar.fH, FieldChar.fH] : List FieldChar).length :=
  ⟨C6_packer_roundtrip.2.1 [72, 8364, 128021] (by decide),
    C6_packer_roundtrip.2.2.1 "HH",
    (C6_packer_roundtrip.2.2.2.2 "HH" [.fH, .fH] [.vint 100, .vint 101]
      (encode_uint 2 100 ++ encode_uint 2 101) (by rfl) (by rfl)).1,
    (C6_packer_roundtrip.2.2.2.2 "HH" [.fH, .fH] [.vint 100, .vint 101]
      (encode_uint 2 100 ++ encode_uint 2 101) (by rfl) (by rfl)).2⟩

/-- C8 (counterexample): two conditional writes of the pair the
predecessor already holds are both suppressed, so no entry with the
written timestamp exists afterwards — the store does not contain
exactly one sample at `t`. -/
theorem C8_idempotence_counterexample :
    (write_value (write_value [(0, [49])] 5000000 [49] true none).1
        5000000 [49] true none).1.countP (fun p => p.1 == 5000000) = 0 := by
  decide

/-- C8 (amended): two consecutive `write(t, v,
only_if_value_changed=true)` with the same pair leave at most one
stored sample at `t` — exactly one when a write occurred, none when
both were suppressed — and grow the store by at most one entry. -/
theorem C8_conditional_write_idempotent (db : List (Nat × Bytes)) (t : Nat) (v : Bytes)
    (hs : SortedDB db) :
    ((write_value (write_value db t v true none).1 t v true none).1.countP
      (fun p => p.1 == t) ≤ 1) ∧
    (write_value (write_value db t v true none).1 t v true none).1.length ≤
      db.length + 1 := by
  set d1 := (write_value db t v true none).1 with hd1
  set d2 := (write_value d1 t v true none).1 with hd2
  have h1 := write_value_fst_cases db t v true none
  rw [← hd1] at h1
  have h2 := write_value_fst_cases d1 t v true none
  rw [← hd2] at h2
  rcases h1 with h1 | h1 <;> rcases h2 with h2 | h2
  · rw [h2, h1]
    exact ⟨countP_key_le_one db t hs, by omega⟩
  · rw [h2, h1]
    exact ⟨countP_key_le_one _ t (put_sorted db t v hs), length_put_le db t v⟩
  · rw [h2, h1]
    exact ⟨countP_key_le_one _ t (put_sorted db t v hs), length_put_le db t v⟩
  · rw [h2, h1]
    have hsp := put_sorted db t v hs
    refine ⟨countP_key_le_one _ t (put_sorted _ t v hsp), ?_⟩
    rw [length_put_mem (put db t v) t v hsp (mem_keys_put db t v)]
    exact length_put_le db t v

/-- Witness for the amended C8 at a concrete store. -/
theorem C8_conditional_write_idempotent_witness :
    SortedDB [(0, [49])] ∧
    (write_value (write_value [(0, [49])] 5000000 [49] true none).1
      5000000 [49] true none).1.length ≤ 2 :=
  ⟨by decide, (C8_conditional_write_idempotent [(0, [49])] 5000000 [49] (by decide)).2⟩

theorem find?_append_singleton {α : Type} (l : List α) (x : α) (p : α → Bool) :
    (l ++ [x]).find? p =
      match l.find? p with
      | some q => some q
      | none => if p x then some x else none := by
  induction l with
  | nil =>
    simp only [List.nil_append, List.find?_nil]
    by_cases hp : p x
    · rw [List.find?_cons_of_pos _ hp, if_pos hp]
    · rw [List.find?_cons_of_neg _ hp, if_neg hp, List.find?_nil]
  | cons a rest ih =>
    by_cases hp : p a
    · rw [List.cons_append, List.find?_cons_of_pos _ hp, List.find?_cons_of_pos _ hp]
    · rw [List.cons_append, List.find?_cons_of_neg _ hp, List.find?_cons_of_neg _ hp, ih]

theorem open_db_of_exists (f : File) (n : String) (h : db_exists f n = true) :
    open_db f n = f := by
  rw [open_db, if_pos h]

theorem db_exists_open_db (f : File) (n : String) :
    db_exists (open_db f n) n = true := by
  rw [open_db]
  split
  · assumption
  · rw [db_exists, find?_append_singleton]
    cases hf : f.find? (fun p => p.1 == n) with
    | none => simp
    | some q => rfl

theorem lookup_db_open_db_getD (f : File) (n : String) :
    (lookup_db (open_db f n) n).getD [] = (lookup_db f n).getD [] := by
  rw [open_db]
  split
  · rfl
  · rw [lookup_db, lookup_db, find?_append_singleton]
    cases hf : f.find? (fun p => p.1 == n) with
    | none => simp
    | some q => rfl

theorem lookup_db_open_db_ne (f : File) (n m : String) (h : m ≠ n) :
    lookup_db (open_db f n) m = lookup_db f m := by
  rw [open_db]
  split
  · rfl
  · rw [lookup_db, lookup_db, find?_append_singleton]
    cases hf : f.find? (fun p => p.1 == m) with
    | none =>
      have hb : ((n, ([] : List (Nat × Bytes))).1 == m) = false := by
        simpa using fun he => h he.symm
      simp [hb]
    | some q => rfl

theorem lookup_db_set_db_self (f : File) (n : String) (db : List (Nat × Bytes))
    (h : db_exists f n = true) :
    lookup_db (set_db f n db) n = some db := by
  induction f with
  | nil => simp [db_exists] at h
  | cons a rest ih =>
    by_cases han : a.1 = n
    · have hb : (a.1 == n) = true := by simpa using han
      rw [set_db, List.map_cons, if_pos hb, lookup_db,
        List.find?_cons_of_pos _ (by simp)]
      rfl
    · have hb : (a.1 == n) = false := by simpa using han
      rw [db_exists, List.find?_cons_of_neg _ (by simp [hb])] at h
      rw [set_db, List.map_cons, if_neg (by simp [hb]), lookup_db,
        List.find?_cons_of_neg _ (by simp [hb])]
      exact ih h

theorem lookup_db_set_db_ne (f : File) (n m : String) (db : List (Nat × Bytes))
    (h : m ≠ n) :
    lookup_db (set_db f n db) m = lookup_db f m := by
  induction f with
  | nil => rfl
  | cons a rest ih =>
    by_cases han : a.1 = n
    · have ham : ((n, db).1 == m) = false := by simpa using fun he => h he.symm
      have ham2 : (a.1 == m) = false := by
        subst han
        simpa using fun he => h he.symm
      rw [set_db, List.map_cons, if_pos (by simpa using han), lookup_db,
        List.find?_cons_of_neg _ (by simp [ham]), lookup_db,
        List.find?_cons_of_neg _ (by simp [ham2])]
      exact ih
    · rw [set_db, List.map_cons, if_neg (by simpa using han), lookup_db, lookup_db]
      by_cases ham : a.1 = m
      · rw [List.find?_cons_of_pos _ (by simpa using ham),
          List.find?_cons_of_pos _ (by simpa using ham)]
      · rw [List.find?_cons_of_neg _ (by simpa using ham),
          List.find?_cons_of_neg _ (by simpa using ham)]
        exact ih

theorem set_db_self (f : File) (n : String) (db : List (Nat × Bytes))
    (hnodup : (f.map Prod.fst).Nodup) (h : lookup_db f n = some db) :
    set_db f n db = f := by
  induction f with
  | nil => rfl
  | cons a rest ih =>
    have hnodup2 := hnodup
    rw [List.map_cons, List.nodup_cons] at hnodup2
    obtain ⟨hna, hrest⟩ := hnodup2
    by_cases han : a.1 = n
    · rw [lookup_db, List.find?_cons_of_pos _ (by simpa using han)] at h
      simp only [Option.map_some', Option.some.injEq] at h
      have hall : rest.map (fun p => if p.1 == n then (n, db) else p) = rest := by
        have h1 : ∀ p ∈ rest, (if p.1 == n then (n, db) else p) = p := by
          intro p hp
          have : (p.1 == n) = false := by
            simp only [beq_eq_false_iff_ne, ne_eq]
            intro he
            apply hna
            have hm : p.1 ∈ rest.map Prod.fst := List.mem_map_of_mem Prod.fst hp
            rw [he, ← han] at hm
            exact hm
          simp [this]
        calc rest.map (fun p => if p.1 == n then (n, db) else p) = rest.map id :=
              List.map_congr_left h1
          _ = rest := List.map_id rest
      rw [set_db, List.map_cons, if_pos (by simpa using han)]
      rw [show (rest.map (fun p => if p.1 == n then (n, db) else p) : File) = rest from hall]
      rw [show ((n, db) : String × List (Nat × Bytes)) = a by
        obtain ⟨a1, a2⟩ := a
        simp only [Prod.mk.injEq]
        exact ⟨han.symm, h.symm⟩]
    · rw [lookup_db, List.find?_cons_of_neg _ (by simpa using han)] at h
      rw [set_db, List.map_cons, if_neg (by simpa using han)]
      rw [set_db] at ih
      rw [ih hrest h]

theorem write_value_append_or_skip (db : List (Nat × Bytes)) (t : Nat) (v : Bytes)
    (hlt : ∀ p ∈ db, p.1 < t) :
    write_value db t v true none =
      if db.getLast?.map Prod.snd = some v then (db, false)
      else (db ++ [(t, v)], true) := by
  have hdrop : db.dropWhile (fun p => p.1 < t) = [] :=
    List.dropWhile_eq_nil_iff.mpr (fun x hx => by simpa using hlt x hx)
  have hcur : cursor_before db t = db.getLast? := by
    rw [cursor_before, hdrop]
    simp
  rw [write_value, write_value_skip, if_pos rfl, hcur]
  cases hgl : db.getLast? with
  | none => simp [put_eq_append db t v hlt]
  | some q =>
    obtain ⟨lt0, lv⟩ := q
    by_cases hv : lv = v
    · subst hv
      simp
    · have hb : (lv == v) = false := by simpa using hv
      simp [hb, hv, put_eq_append db t v hlt]

/-- C10: constructing `Sensor(file, name, fmt)` with a valid explicit
format descriptor immediately writes the pair (current time, fmt) into
the `format_<name>` sub-store — creating it when absent — whenever fmt
differs from the sub-store's most recent value, leaving every other
sub-store unchanged; it writes nothing when fmt equals the most recent
value; and constructing `Sensor(file, name)` without a format argument
performs no write and leaves the file unchanged, whether the format
sub-store is absent, empty, or holds a stored valid descriptor. -/
theorem C10_sensor_init_format_effect (f : File) (name d : String) (now : Nat)
    (hnodup : (f.map Prod.fst).Nodup)
    (hvalid : valid_format d)
    (hlt : ∀ p ∈ (lookup_db f ("format_" ++ name)).getD [], p.1 < now) :
    ((((lookup_db f ("format_" ++ name)).getD []).getLast?.map Prod.snd ≠
        some (strToBytes d)) →
      sensor_init f name (some d) now =
        .ok (set_db (open_db f ("format_" ++ name)) ("format_" ++ name)
          (((lookup_db f ("format_" ++ name)).getD []) ++ [(now, strToBytes d)])) ∧
      lookup_db (set_db (open_db f ("format_" ++ name)) ("format_" ++ name)
          (((lookup_db f ("format_" ++ name)).getD []) ++ [(now, strToBytes d)]))
          ("format_" ++ name) =
        some (((lookup_db f ("format_" ++ name)).getD []) ++ [(now, strToBytes d)]) ∧
      (∀ m, m ≠ "format_" ++ name →
        lookup_db (set_db (open_db f ("format_" ++ name)) ("format_" ++ name)
          (((lookup_db f ("format_" ++ name)).getD []) ++ [(now, strToBytes d)])) m =
        lookup_db f m)) ∧
    ((((lookup_db f ("format_" ++ name)).getD []).getLast?.map Prod.snd =
        some (strToBytes d)) →
      sensor_init f name (some d) now = .ok f) ∧
    ((lookup_db f ("format_" ++ name) = none ∨
        lookup_db f ("format_" ++ name) = some []) →
      sensor_init f name none now = .ok f) ∧
    (∀ d0 : String, valid_format d0 →
      ((lookup_db f ("format_" ++ name)).getD []).getLast?.map Prod.snd =
        some (strToBytes d0) →
      sensor_init f name none now = .ok f) := by
  set fname := "format_" ++ name with hfname
  have hwrite : ∀ v : Bytes,
      ((lookup_db f fname).getD []).getLast?.map Prod.snd ≠ some v →
      write_value_op f fname now v true none =
        (set_db (open_db f fname) fname
          (((lookup_db f fname).getD []) ++ [(now, v)]), true) := by
    intro v hne
    simp only [write_value_op]
    rw [lookup_db_open_db_getD]
    rw [write_value_append_or_skip _ now v hlt, if_neg hne]
  have hskip : ∀ v : Bytes,
      ((lookup_db f fname).getD []).getLast?.map Prod.snd = some v →
      write_value_op f fname now v true none = (f, false) := by
    intro v heq
    have hnonempty : (lookup_db f fname).getD [] ≠ [] := by
      intro he
      rw [he] at heq
      simp at heq
    have hexists : db_exists f fname = true := by
      rw [db_exists]
      cases hf : f.find? (fun p => p.1 == fname) with
      | none =>
        exfalso
        apply hnonempty
        rw [lookup_db, hf]
        rfl
      | some q => rfl
    have hlook : lookup_db f fname = some ((lookup_db f fname).getD []) := by
      cases hl : lookup_db f fname with
      | none =>
        exfalso
        apply hnonempty
        rw [hl]
        rfl
      | some dbv => rfl
    simp only [write_value_op]
    rw [open_db_of_exists f fname hexists,
      write_value_append_or_skip _ now v hlt, if_pos heq]
    rw [set_db_self f fname ((lookup_db f fname).getD []) hnodup hlook]
  have hlast : ∀ v : Bytes,
      ((lookup_db f fname).getD []).getLast?.map Prod.snd = some v →
      get_last_value_op f fname = (some v, f) := by
    intro v heq
    have hnonempty : (lookup_db f fname).getD [] ≠ [] := by
      intro he
      rw [he] at heq
      simp at heq
    have hexists : db_exists f fname = true := by
      rw [db_exists]
      cases hf : f.find? (fun p => p.1 == fname) with
      | none =>
        exfalso
        apply hnonempty
        rw [lookup_db, hf]
        rfl
      | some q => rfl
    rw [get_last_value_op, if_pos hexists]
    cases hgl : ((lookup_db f fname).getD []).getLast? with
    | none =>
      rw [hgl] at heq
      simp at heq
    | some q =>
      obtain ⟨k, w⟩ := q
      rw [hgl] at heq
      simp only [Option.map_some', Option.some.injEq] at heq
      subst heq
      rfl
  have hdne : ¬ d.isEmpty = true := by
    intro he
    have hd : d = "" := (String.isEmpty_iff d).mp he
    subst hd
    revert hvalid
    decide
  refine ⟨?_, ?_, ?_, ?_⟩
  · intro hne
    refine ⟨?_, ?_, ?_⟩
    · simp only [sensor_init]
      rw [if_neg hdne]
      simp only [data_format_set, if_pos hvalid]
      rw [hwrite (strToBytes d) hne]
    · exact lookup_db_set_db_self (open_db f fname) fname _ (db_exists_open_db f fname)
    · intro m hm
      rw [lookup_db_set_db_ne _ _ _ _ hm, lookup_db_open_db_ne _ _ _ hm]
  · intro heq
    simp only [sensor_init]
    rw [if_neg hdne]
    simp only [data_format_set, if_pos hvalid]
    rw [hskip (strToBytes d) heq]
  · intro hcase
    have hget : get_last_value_op f fname = (none, f) := by
      rcases hcase with hnone | hsome
      · rw [get_last_value_op]
        have hex : db_exists f fname = false := by
          rw [db_exists]
          rw [lookup_db] at hnone
          cases hf : f.find? (fun p => p.1 == fname) with
          | none => rfl
          | some q =>
            rw [hf] at hnone
            simp at hnone
        rw [hex]
        simp
      · rw [get_last_value_op]
        split
        · rw [hsome]
          rfl
        · rfl
    simp only [sensor_init, sensor_init.sensor_init_read, hget, data_format_set]
  · intro d0 hv0 heq0
    have hget := hlast (strToBytes d0) heq0
    simp only [sensor_init, sensor_init.sensor_init_read, hget]
    have hdec : utf8Decode (strToBytes d0) = some (d0.data.map Char.toNat) := by
      apply utf8Decode_encode
      intro c hc
      obtain ⟨ch, _, rfl⟩ := List.mem_map.mp hc
      exact validCodepoint_toNat ch
    rw [hdec]
    have hstr : String.mk ((d0.data.map Char.toNat).map Char.ofNat) = d0 := by
      rw [List.map_map]
      have h1 : d0.data.map (Char.ofNat ∘ Char.toNat) = d0.data.map id := by
        apply List.map_congr_left
        intro ch _
        simp [Function.comp, Char.ofNat_toNat]
      rw [h1, List.map_id]
    show data_format_set f name
      (some (String.mk ((d0.data.map Char.toNat).map Char.ofNat))) now = PyResult.ok f
    rw [hstr]
    simp only [data_format_set, if_pos hv0]
    rw [hskip (strToBytes d0) heq0]

/-- Witness for C10: on an empty file, constructing the sensor with
format `f` creates `format_x` and stores the descriptor, and
constructing without a format leaves the file untouched. -/
theorem C10_sensor_init_format_effect_witness :
    (((lookup_db [] ("format_" ++ "x")).getD []).getLast?.map Prod.snd ≠
      some (strToBytes "f")) ∧
    sensor_init [] "x" (some "f") 1 =
      .ok (set_db (open_db [] ("format_" ++ "x")) ("format_" ++ "x")
        (((lookup_db [] ("format_" ++ "x")).getD []) ++ [(1, strToBytes "f")])) ∧
    sensor_init [] "x" none 1 = .ok [] :=
  ⟨by decide,
    ((C10_sensor_init_format_effect [] "x" "f" 1 (by decide) (by decide)
      (by decide)).1 (by decide)).1,
    (C10_sensor_init_format_effect [] "x" "f" 1 (by decide) (by decide)
      (by decide)).2.2.1 (Or.inl (by decide))⟩

/-- Witness for C9 at concrete parsing predicates. -/
theorem C9_guess_format_raises_witness :
    guess_format_string (fun _ => false) (fun _ => false) (.plist [.pdict]) =
      .error .typeError :=
  C9_guess_format_raises (fun _ => false) (fun _ => false)
